import Mathlib

/-!
# Geany tag manager: the parser tables of tm_parser.c

A shallow embedding of the kind/type registry of `src/tagmanager/tm_parser.c`
(the per-language kind maps, the two lookups over them, the subparser table,
the consistency verifier, the language compatibility predicate, and the scope
and formatting functions), followed by the properties proved about it.

Conventions of the embedding:
* a `gchar` is a `Char` (the C type holds the codes below 256, the kind codes
  of the tables are ASCII letters), and the cast `(unsigned char)` is the code
  modulo 256;
* a C array together with its element count is a `List`, and a C string is
  the list of its characters; a string that may be `NULL` is an `Option`;
* `TMParserType` is `gint`, so it is an `Int`; reading `parser_map[lang]`
  outside the array has no defined result and is modelled by `none`;
* `g_error` aborts the process: the verifier returns `Except VerifyError Unit`
  and stops at the first error.
-/

namespace Geany

/-! ## Data model -/

/-- Modelled from the spec: the `TMTagType` enumeration is declared in
`tm_parser.h`, which is not among the sources; these are the tag types the
tables of `tm_parser.c` use, as listed in section 3 of the specification. -/
inductive TMTagType where
  | tm_tag_undef_t
  | tm_tag_class_t
  | tm_tag_enum_t
  | tm_tag_enumerator_t
  | tm_tag_field_t
  | tm_tag_function_t
  | tm_tag_interface_t
  | tm_tag_member_t
  | tm_tag_method_t
  | tm_tag_namespace_t
  | tm_tag_package_t
  | tm_tag_prototype_t
  | tm_tag_struct_t
  | tm_tag_typedef_t
  | tm_tag_union_t
  | tm_tag_variable_t
  | tm_tag_externvar_t
  | tm_tag_macro_t
  | tm_tag_other_t
  deriving DecidableEq, Repr

open TMTagType

/-- A `gchar`, the C character type of a kind code. -/
abbrev gchar := Char

/-- One row of a kind map (`TMParserMapEntry`). -/
structure TMParserMapEntry where
  kind : gchar
  type : TMTagType
  deriving DecidableEq, Repr

/-- One rule of a subparser table (`TMSubparserMapEntry`): subparser tags of
type `orig_type` are kept and given the type `new_type`. -/
structure TMSubparserMapEntry where
  orig_type : TMTagType
  new_type : TMTagType
  deriving DecidableEq, Repr

/-- The parser identifier `TMParserType` (a `gint`). -/
abbrev TMParserType := Int

/-- Modelled from the spec: the "no language" sentinel of the `TM_PARSER_*`
enumeration of `tm_parser.h` (not among the sources), a negative value
distinct from every language. -/
abbrev TM_PARSER_NONE : TMParserType := -2

/-! The `TM_PARSER_*` enumerators of `tm_parser.h` (not among the sources),
numbered from zero in the order of `parser_map`, which the source keeps in
sync with the header. -/

/-- Modelled from the spec: enumerator 0 of `TM_PARSER_*` (`tm_parser.h`). -/
abbrev TM_PARSER_C : TMParserType := 0
/-- Modelled from the spec: enumerator 1 of `TM_PARSER_*` (`tm_parser.h`). -/
abbrev TM_PARSER_CPP : TMParserType := 1
/-- Modelled from the spec: enumerator 2 of `TM_PARSER_*` (`tm_parser.h`). -/
abbrev TM_PARSER_JAVA : TMParserType := 2
/-- Modelled from the spec: enumerator 3 of `TM_PARSER_*` (`tm_parser.h`). -/
abbrev TM_PARSER_MAKEFILE : TMParserType := 3
/-- Modelled from the spec: enumerator 4 of `TM_PARSER_*` (`tm_parser.h`). -/
abbrev TM_PARSER_PASCAL : TMParserType := 4
/-- Modelled from the spec: enumerator 5 of `TM_PARSER_*` (`tm_parser.h`). -/
abbrev TM_PARSER_PERL : TMParserType := 5
/-- Modelled from the spec: enumerator 6 of `TM_PARSER_*` (`tm_parser.h`). -/
abbrev TM_PARSER_PHP : TMParserType := 6
/-- Modelled from the spec: enumerator 7 of `TM_PARSER_*` (`tm_parser.h`). -/
abbrev TM_PARSER_PYTHON : TMParserType := 7
/-- Modelled from the spec: enumerator 8 of `TM_PARSER_*` (`tm_parser.h`). -/
abbrev TM_PARSER_LATEX : TMParserType := 8
/-- Modelled from the spec: enumerator 9 of `TM_PARSER_*` (`tm_parser.h`). -/
abbrev TM_PARSER_BIBTEX : TMParserType := 9
/-- Modelled from the spec: enumerator 10 of `TM_PARSER_*` (`tm_parser.h`). -/
abbrev TM_PARSER_ASM : TMParserType := 10
/-- Modelled from the spec: enumerator 11 of `TM_PARSER_*` (`tm_parser.h`). -/
abbrev TM_PARSER_CONF : TMParserType := 11
/-- Modelled from the spec: enumerator 12 of `TM_PARSER_*` (`tm_parser.h`). -/
abbrev TM_PARSER_SQL : TMParserType := 12
/-- Modelled from the spec: enumerator 13 of `TM_PARSER_*` (`tm_parser.h`). -/
abbrev TM_PARSER_DOCBOOK : TMParserType := 13
/-- Modelled from the spec: enumerator 14 of `TM_PARSER_*` (`tm_parser.h`). -/
abbrev TM_PARSER_ERLANG : TMParserType := 14
/-- Modelled from the spec: enumerator 15 of `TM_PARSER_*` (`tm_parser.h`). -/
abbrev TM_PARSER_CSS : TMParserType := 15
/-- Modelled from the spec: enumerator 16 of `TM_PARSER_*` (`tm_parser.h`). -/
abbrev TM_PARSER_RUBY : TMParserType := 16
/-- Modelled from the spec: enumerator 17 of `TM_PARSER_*` (`tm_parser.h`). -/
abbrev TM_PARSER_TCL : TMParserType := 17
/-- Modelled from the spec: enumerator 18 of `TM_PARSER_*` (`tm_parser.h`). -/
abbrev TM_PARSER_SH : TMParserType := 18
/-- Modelled from the spec: enumerator 19 of `TM_PARSER_*` (`tm_parser.h`). -/
abbrev TM_PARSER_D : TMParserType := 19
/-- Modelled from the spec: enumerator 20 of `TM_PARSER_*` (`tm_parser.h`). -/
abbrev TM_PARSER_FORTRAN : TMParserType := 20
/-- Modelled from the spec: enumerator 21 of `TM_PARSER_*` (`tm_parser.h`). -/
abbrev TM_PARSER_FERITE : TMParserType := 21
/-- Modelled from the spec: enumerator 22 of `TM_PARSER_*` (`tm_parser.h`). -/
abbrev TM_PARSER_DIFF : TMParserType := 22
/-- Modelled from the spec: enumerator 23 of `TM_PARSER_*` (`tm_parser.h`). -/
abbrev TM_PARSER_VHDL : TMParserType := 23
/-- Modelled from the spec: enumerator 24 of `TM_PARSER_*` (`tm_parser.h`). -/
abbrev TM_PARSER_LUA : TMParserType := 24
/-- Modelled from the spec: enumerator 25 of `TM_PARSER_*` (`tm_parser.h`). -/
abbrev TM_PARSER_JAVASCRIPT : TMParserType := 25
/-- Modelled from the spec: enumerator 26 of `TM_PARSER_*` (`tm_parser.h`). -/
abbrev TM_PARSER_HASKELL : TMParserType := 26
/-- Modelled from the spec: enumerator 27 of `TM_PARSER_*` (`tm_parser.h`). -/
abbrev TM_PARSER_CSHARP : TMParserType := 27
/-- Modelled from the spec: enumerator 28 of `TM_PARSER_*` (`tm_parser.h`). -/
abbrev TM_PARSER_FREEBASIC : TMParserType := 28
/-- Modelled from the spec: enumerator 29 of `TM_PARSER_*` (`tm_parser.h`). -/
abbrev TM_PARSER_HAXE : TMParserType := 29
/-- Modelled from the spec: enumerator 30 of `TM_PARSER_*` (`tm_parser.h`). -/
abbrev TM_PARSER_REST : TMParserType := 30
/-- Modelled from the spec: enumerator 31 of `TM_PARSER_*` (`tm_parser.h`). -/
abbrev TM_PARSER_HTML : TMParserType := 31
/-- Modelled from the spec: enumerator 32 of `TM_PARSER_*` (`tm_parser.h`). -/
abbrev TM_PARSER_F77 : TMParserType := 32
/-- Modelled from the spec: enumerator 33 of `TM_PARSER_*` (`tm_parser.h`). -/
abbrev TM_PARSER_GLSL : TMParserType := 33
/-- Modelled from the spec: enumerator 34 of `TM_PARSER_*` (`tm_parser.h`). -/
abbrev TM_PARSER_MATLAB : TMParserType := 34
/-- Modelled from the spec: enumerator 35 of `TM_PARSER_*` (`tm_parser.h`). -/
abbrev TM_PARSER_VALA : TMParserType := 35
/-- Modelled from the spec: enumerator 36 of `TM_PARSER_*` (`tm_parser.h`). -/
abbrev TM_PARSER_ACTIONSCRIPT : TMParserType := 36
/-- Modelled from the spec: enumerator 37 of `TM_PARSER_*` (`tm_parser.h`). -/
abbrev TM_PARSER_NSIS : TMParserType := 37
/-- Modelled from the spec: enumerator 38 of `TM_PARSER_*` (`tm_parser.h`). -/
abbrev TM_PARSER_MARKDOWN : TMParserType := 38
/-- Modelled from the spec: enumerator 39 of `TM_PARSER_*` (`tm_parser.h`). -/
abbrev TM_PARSER_TXT2TAGS : TMParserType := 39
/-- Modelled from the spec: enumerator 40 of `TM_PARSER_*` (`tm_parser.h`). -/
abbrev TM_PARSER_ABC : TMParserType := 40
/-- Modelled from the spec: enumerator 41 of `TM_PARSER_*` (`tm_parser.h`). -/
abbrev TM_PARSER_VERILOG : TMParserType := 41
/-- Modelled from the spec: enumerator 42 of `TM_PARSER_*` (`tm_parser.h`). -/
abbrev TM_PARSER_R : TMParserType := 42
/-- Modelled from the spec: enumerator 43 of `TM_PARSER_*` (`tm_parser.h`). -/
abbrev TM_PARSER_COBOL : TMParserType := 43
/-- Modelled from the spec: enumerator 44 of `TM_PARSER_*` (`tm_parser.h`). -/
abbrev TM_PARSER_OBJC : TMParserType := 44
/-- Modelled from the spec: enumerator 45 of `TM_PARSER_*` (`tm_parser.h`). -/
abbrev TM_PARSER_ASCIIDOC : TMParserType := 45
/-- Modelled from the spec: enumerator 46 of `TM_PARSER_*` (`tm_parser.h`). -/
abbrev TM_PARSER_ABAQUS : TMParserType := 46
/-- Modelled from the spec: enumerator 47 of `TM_PARSER_*` (`tm_parser.h`). -/
abbrev TM_PARSER_RUST : TMParserType := 47
/-- Modelled from the spec: enumerator 48 of `TM_PARSER_*` (`tm_parser.h`). -/
abbrev TM_PARSER_GO : TMParserType := 48
/-- Modelled from the spec: enumerator 49 of `TM_PARSER_*` (`tm_parser.h`). -/
abbrev TM_PARSER_JSON : TMParserType := 49
/-- Modelled from the spec: enumerator 50 of `TM_PARSER_*` (`tm_parser.h`). -/
abbrev TM_PARSER_ZEPHIR : TMParserType := 50
/-- Modelled from the spec: enumerator 51 of `TM_PARSER_*` (`tm_parser.h`). -/
abbrev TM_PARSER_POWERSHELL : TMParserType := 51
/-- Modelled from the spec: enumerator 52 of `TM_PARSER_*` (`tm_parser.h`). -/
abbrev TM_PARSER_JULIA : TMParserType := 52
/-- Modelled from the spec: enumerator 53 of `TM_PARSER_*` (`tm_parser.h`). -/
abbrev TM_PARSER_CPREPROCESSOR : TMParserType := 53
/-- Modelled from the spec: enumerator 54 of `TM_PARSER_*` (`tm_parser.h`). -/
abbrev TM_PARSER_GDSCRIPT : TMParserType := 54
/-- Modelled from the spec: the number of languages, the last enumerator of
`TM_PARSER_*`; `parser_map` is asserted to have this many elements. -/
abbrev TM_PARSER_COUNT : TMParserType := 55

/-! ## The kind maps -/

/-- The eleven kinds shared by the C-family maps (macro COMMON_C). -/
def COMMON_C : List TMParserMapEntry :=
  [
  ⟨'d', tm_tag_macro_t⟩,
  ⟨'e', tm_tag_enumerator_t⟩,
  ⟨'f', tm_tag_function_t⟩,
  ⟨'g', tm_tag_enum_t⟩,
  ⟨'m', tm_tag_member_t⟩,
  ⟨'p', tm_tag_prototype_t⟩,
  ⟨'s', tm_tag_struct_t⟩,
  ⟨'t', tm_tag_typedef_t⟩,
  ⟨'u', tm_tag_union_t⟩,
  ⟨'v', tm_tag_variable_t⟩,
  ⟨'x', tm_tag_externvar_t⟩
  ]

/-- The extra kinds of the new C parser (macro COMMON_C_NEW_PARSER). -/
def COMMON_C_NEW_PARSER : List TMParserMapEntry :=
  [
  ⟨'h', tm_tag_undef_t⟩,
  ⟨'l', tm_tag_undef_t⟩,
  ⟨'z', tm_tag_undef_t⟩,
  ⟨'L', tm_tag_undef_t⟩,
  ⟨'D', tm_tag_undef_t⟩
  ]

/-- The array `map_C_old_parser` of the source: the old C parser, also used
by GLSL and Ferite. -/
def map_C_old : List TMParserMapEntry :=
  COMMON_C ++
  [
  ⟨'c', tm_tag_class_t⟩,
  ⟨'n', tm_tag_namespace_t⟩
  ]

def map_C : List TMParserMapEntry :=
  COMMON_C ++
  COMMON_C_NEW_PARSER

def map_CPP : List TMParserMapEntry :=
  COMMON_C ++
  COMMON_C_NEW_PARSER ++
  [
  ⟨'c', tm_tag_class_t⟩,
  ⟨'n', tm_tag_namespace_t⟩,
  ⟨'A', tm_tag_undef_t⟩,
  ⟨'N', tm_tag_undef_t⟩,
  ⟨'U', tm_tag_undef_t⟩,
  ⟨'Z', tm_tag_undef_t⟩
  ]

def map_JAVA : List TMParserMapEntry :=
  [
  ⟨'c', tm_tag_class_t⟩,
  ⟨'f', tm_tag_field_t⟩,
  ⟨'i', tm_tag_interface_t⟩,
  ⟨'m', tm_tag_method_t⟩,
  ⟨'p', tm_tag_package_t⟩,
  ⟨'e', tm_tag_enumerator_t⟩,
  ⟨'g', tm_tag_enum_t⟩
  ]

def map_MAKEFILE : List TMParserMapEntry :=
  [
  ⟨'m', tm_tag_macro_t⟩,
  ⟨'t', tm_tag_function_t⟩,
  ⟨'I', tm_tag_undef_t⟩
  ]

def map_PASCAL : List TMParserMapEntry :=
  [
  ⟨'f', tm_tag_function_t⟩,
  ⟨'p', tm_tag_function_t⟩
  ]

def map_PERL : List TMParserMapEntry :=
  [
  ⟨'c', tm_tag_enum_t⟩,
  ⟨'f', tm_tag_other_t⟩,
  ⟨'l', tm_tag_macro_t⟩,
  ⟨'p', tm_tag_package_t⟩,
  ⟨'s', tm_tag_function_t⟩,
  ⟨'d', tm_tag_prototype_t⟩,
  ⟨'M', tm_tag_undef_t⟩
  ]

def map_PHP : List TMParserMapEntry :=
  [
  ⟨'c', tm_tag_class_t⟩,
  ⟨'d', tm_tag_macro_t⟩,
  ⟨'f', tm_tag_function_t⟩,
  ⟨'i', tm_tag_interface_t⟩,
  ⟨'l', tm_tag_undef_t⟩,
  ⟨'n', tm_tag_namespace_t⟩,
  ⟨'t', tm_tag_struct_t⟩,
  ⟨'v', tm_tag_variable_t⟩,
  ⟨'a', tm_tag_undef_t⟩
  ]

def map_PYTHON : List TMParserMapEntry :=
  [
  ⟨'c', tm_tag_class_t⟩,
  ⟨'f', tm_tag_function_t⟩,
  ⟨'m', tm_tag_method_t⟩,
  ⟨'v', tm_tag_variable_t⟩,
  ⟨'x', tm_tag_externvar_t⟩
  ]

def map_LATEX : List TMParserMapEntry :=
  [
  ⟨'f', tm_tag_function_t⟩,
  ⟨'c', tm_tag_class_t⟩,
  ⟨'m', tm_tag_member_t⟩,
  ⟨'d', tm_tag_macro_t⟩,
  ⟨'v', tm_tag_variable_t⟩,
  ⟨'n', tm_tag_namespace_t⟩,
  ⟨'s', tm_tag_struct_t⟩
  ]

def map_BIBTEX : List TMParserMapEntry :=
  [
  ⟨'a', tm_tag_function_t⟩,
  ⟨'b', tm_tag_class_t⟩,
  ⟨'B', tm_tag_class_t⟩,
  ⟨'c', tm_tag_member_t⟩,
  ⟨'i', tm_tag_macro_t⟩,
  ⟨'I', tm_tag_macro_t⟩,
  ⟨'j', tm_tag_member_t⟩,
  ⟨'m', tm_tag_other_t⟩,
  ⟨'M', tm_tag_variable_t⟩,
  ⟨'n', tm_tag_other_t⟩,
  ⟨'p', tm_tag_variable_t⟩,
  ⟨'P', tm_tag_class_t⟩,
  ⟨'s', tm_tag_namespace_t⟩,
  ⟨'t', tm_tag_other_t⟩,
  ⟨'u', tm_tag_externvar_t⟩
  ]

def map_ASM : List TMParserMapEntry :=
  [
  ⟨'d', tm_tag_macro_t⟩,
  ⟨'l', tm_tag_namespace_t⟩,
  ⟨'m', tm_tag_function_t⟩,
  ⟨'t', tm_tag_struct_t⟩
  ]

def map_CONF : List TMParserMapEntry :=
  [
  ⟨'s', tm_tag_namespace_t⟩,
  ⟨'k', tm_tag_macro_t⟩
  ]

def map_SQL : List TMParserMapEntry :=
  [
  ⟨'c', tm_tag_undef_t⟩,
  ⟨'d', tm_tag_prototype_t⟩,
  ⟨'f', tm_tag_function_t⟩,
  ⟨'E', tm_tag_field_t⟩,
  ⟨'l', tm_tag_undef_t⟩,
  ⟨'L', tm_tag_undef_t⟩,
  ⟨'P', tm_tag_package_t⟩,
  ⟨'p', tm_tag_namespace_t⟩,
  ⟨'r', tm_tag_undef_t⟩,
  ⟨'s', tm_tag_undef_t⟩,
  ⟨'t', tm_tag_class_t⟩,
  ⟨'T', tm_tag_macro_t⟩,
  ⟨'v', tm_tag_variable_t⟩,
  ⟨'i', tm_tag_struct_t⟩,
  ⟨'e', tm_tag_undef_t⟩,
  ⟨'U', tm_tag_undef_t⟩,
  ⟨'R', tm_tag_undef_t⟩,
  ⟨'D', tm_tag_undef_t⟩,
  ⟨'V', tm_tag_member_t⟩,
  ⟨'n', tm_tag_undef_t⟩,
  ⟨'x', tm_tag_undef_t⟩,
  ⟨'y', tm_tag_undef_t⟩,
  ⟨'z', tm_tag_undef_t⟩,
  ⟨'C', tm_tag_undef_t⟩
  ]

def map_DOCBOOK : List TMParserMapEntry :=
  [
  ⟨'f', tm_tag_function_t⟩,
  ⟨'c', tm_tag_class_t⟩,
  ⟨'m', tm_tag_member_t⟩,
  ⟨'d', tm_tag_macro_t⟩,
  ⟨'v', tm_tag_variable_t⟩,
  ⟨'s', tm_tag_struct_t⟩
  ]

def map_ERLANG : List TMParserMapEntry :=
  [
  ⟨'d', tm_tag_macro_t⟩,
  ⟨'f', tm_tag_function_t⟩,
  ⟨'m', tm_tag_undef_t⟩,
  ⟨'r', tm_tag_struct_t⟩,
  ⟨'t', tm_tag_typedef_t⟩
  ]

def map_CSS : List TMParserMapEntry :=
  [
  ⟨'c', tm_tag_class_t⟩,
  ⟨'s', tm_tag_struct_t⟩,
  ⟨'i', tm_tag_variable_t⟩
  ]

def map_RUBY : List TMParserMapEntry :=
  [
  ⟨'c', tm_tag_class_t⟩,
  ⟨'f', tm_tag_method_t⟩,
  ⟨'m', tm_tag_namespace_t⟩,
  ⟨'S', tm_tag_member_t⟩,
  ⟨'C', tm_tag_undef_t⟩,
  ⟨'A', tm_tag_undef_t⟩,
  ⟨'a', tm_tag_undef_t⟩,
  ⟨'L', tm_tag_undef_t⟩
  ]

def map_TCL : List TMParserMapEntry :=
  [
  ⟨'c', tm_tag_class_t⟩,
  ⟨'m', tm_tag_member_t⟩,
  ⟨'p', tm_tag_function_t⟩,
  ⟨'n', tm_tag_namespace_t⟩
  ]

def map_SH : List TMParserMapEntry :=
  [
  ⟨'f', tm_tag_function_t⟩
  ]

def map_D : List TMParserMapEntry :=
  [
  ⟨'c', tm_tag_class_t⟩,
  ⟨'e', tm_tag_enumerator_t⟩,
  ⟨'f', tm_tag_function_t⟩,
  ⟨'g', tm_tag_enum_t⟩,
  ⟨'i', tm_tag_interface_t⟩,
  ⟨'m', tm_tag_member_t⟩,
  ⟨'n', tm_tag_namespace_t⟩,
  ⟨'p', tm_tag_prototype_t⟩,
  ⟨'s', tm_tag_struct_t⟩,
  ⟨'t', tm_tag_typedef_t⟩,
  ⟨'u', tm_tag_union_t⟩,
  ⟨'v', tm_tag_variable_t⟩,
  ⟨'x', tm_tag_externvar_t⟩
  ]

def map_DIFF : List TMParserMapEntry :=
  [
  ⟨'m', tm_tag_function_t⟩,
  ⟨'n', tm_tag_function_t⟩,
  ⟨'d', tm_tag_function_t⟩,
  ⟨'h', tm_tag_undef_t⟩
  ]

def map_VHDL : List TMParserMapEntry :=
  [
  ⟨'c', tm_tag_variable_t⟩,
  ⟨'t', tm_tag_typedef_t⟩,
  ⟨'v', tm_tag_variable_t⟩,
  ⟨'a', tm_tag_undef_t⟩,
  ⟨'s', tm_tag_variable_t⟩,
  ⟨'f', tm_tag_function_t⟩,
  ⟨'p', tm_tag_function_t⟩,
  ⟨'k', tm_tag_member_t⟩,
  ⟨'l', tm_tag_namespace_t⟩,
  ⟨'m', tm_tag_member_t⟩,
  ⟨'n', tm_tag_class_t⟩,
  ⟨'o', tm_tag_struct_t⟩,
  ⟨'u', tm_tag_undef_t⟩,
  ⟨'b', tm_tag_member_t⟩,
  ⟨'A', tm_tag_typedef_t⟩
  ]

def map_LUA : List TMParserMapEntry :=
  [
  ⟨'f', tm_tag_function_t⟩,
  ⟨'X', tm_tag_undef_t⟩
  ]

def map_JAVASCRIPT : List TMParserMapEntry :=
  [
  ⟨'f', tm_tag_function_t⟩,
  ⟨'c', tm_tag_class_t⟩,
  ⟨'m', tm_tag_method_t⟩,
  ⟨'p', tm_tag_member_t⟩,
  ⟨'C', tm_tag_macro_t⟩,
  ⟨'v', tm_tag_variable_t⟩,
  ⟨'g', tm_tag_function_t⟩,
  ⟨'G', tm_tag_undef_t⟩,
  ⟨'S', tm_tag_undef_t⟩,
  ⟨'M', tm_tag_undef_t⟩
  ]

def map_HASKELL : List TMParserMapEntry :=
  [
  ⟨'t', tm_tag_typedef_t⟩,
  ⟨'c', tm_tag_macro_t⟩,
  ⟨'f', tm_tag_function_t⟩,
  ⟨'m', tm_tag_namespace_t⟩
  ]

def map_CSHARP : List TMParserMapEntry :=
  [
  ⟨'c', tm_tag_class_t⟩,
  ⟨'d', tm_tag_macro_t⟩,
  ⟨'e', tm_tag_enumerator_t⟩,
  ⟨'E', tm_tag_undef_t⟩,
  ⟨'f', tm_tag_field_t⟩,
  ⟨'g', tm_tag_enum_t⟩,
  ⟨'i', tm_tag_interface_t⟩,
  ⟨'l', tm_tag_undef_t⟩,
  ⟨'m', tm_tag_method_t⟩,
  ⟨'n', tm_tag_namespace_t⟩,
  ⟨'p', tm_tag_undef_t⟩,
  ⟨'s', tm_tag_struct_t⟩,
  ⟨'t', tm_tag_typedef_t⟩
  ]

def map_FREEBASIC : List TMParserMapEntry :=
  [
  ⟨'c', tm_tag_macro_t⟩,
  ⟨'f', tm_tag_function_t⟩,
  ⟨'l', tm_tag_namespace_t⟩,
  ⟨'t', tm_tag_struct_t⟩,
  ⟨'v', tm_tag_variable_t⟩,
  ⟨'g', tm_tag_externvar_t⟩
  ]

def map_HAXE : List TMParserMapEntry :=
  [
  ⟨'m', tm_tag_method_t⟩,
  ⟨'c', tm_tag_class_t⟩,
  ⟨'e', tm_tag_enum_t⟩,
  ⟨'v', tm_tag_variable_t⟩,
  ⟨'i', tm_tag_interface_t⟩,
  ⟨'t', tm_tag_typedef_t⟩
  ]

def map_REST : List TMParserMapEntry :=
  [
  ⟨'c', tm_tag_namespace_t⟩,
  ⟨'s', tm_tag_member_t⟩,
  ⟨'S', tm_tag_macro_t⟩,
  ⟨'t', tm_tag_variable_t⟩,
  ⟨'C', tm_tag_undef_t⟩,
  ⟨'T', tm_tag_undef_t⟩,
  ⟨'d', tm_tag_undef_t⟩
  ]

def map_HTML : List TMParserMapEntry :=
  [
  ⟨'a', tm_tag_member_t⟩,
  ⟨'c', tm_tag_undef_t⟩,
  ⟨'h', tm_tag_namespace_t⟩,
  ⟨'i', tm_tag_class_t⟩,
  ⟨'j', tm_tag_variable_t⟩,
  ⟨'C', tm_tag_undef_t⟩,
  ⟨'I', tm_tag_undef_t⟩,
  ⟨'J', tm_tag_undef_t⟩
  ]

def map_F77 : List TMParserMapEntry :=
  [
  ⟨'b', tm_tag_undef_t⟩,
  ⟨'c', tm_tag_macro_t⟩,
  ⟨'e', tm_tag_undef_t⟩,
  ⟨'f', tm_tag_function_t⟩,
  ⟨'i', tm_tag_interface_t⟩,
  ⟨'k', tm_tag_member_t⟩,
  ⟨'l', tm_tag_undef_t⟩,
  ⟨'L', tm_tag_undef_t⟩,
  ⟨'m', tm_tag_namespace_t⟩,
  ⟨'n', tm_tag_undef_t⟩,
  ⟨'p', tm_tag_struct_t⟩,
  ⟨'s', tm_tag_method_t⟩,
  ⟨'t', tm_tag_class_t⟩,
  ⟨'v', tm_tag_variable_t⟩,
  ⟨'E', tm_tag_enum_t⟩,
  ⟨'N', tm_tag_enumerator_t⟩
  ]

def map_FORTRAN : List TMParserMapEntry := map_F77

def map_FERITE : List TMParserMapEntry := map_C_old

def map_MATLAB : List TMParserMapEntry :=
  [
  ⟨'f', tm_tag_function_t⟩,
  ⟨'s', tm_tag_struct_t⟩
  ]

def map_GLSL : List TMParserMapEntry := map_C_old

def map_VALA : List TMParserMapEntry :=
  [
  ⟨'c', tm_tag_class_t⟩,
  ⟨'d', tm_tag_macro_t⟩,
  ⟨'e', tm_tag_enumerator_t⟩,
  ⟨'f', tm_tag_field_t⟩,
  ⟨'g', tm_tag_enum_t⟩,
  ⟨'i', tm_tag_interface_t⟩,
  ⟨'l', tm_tag_undef_t⟩,
  ⟨'m', tm_tag_method_t⟩,
  ⟨'n', tm_tag_namespace_t⟩,
  ⟨'p', tm_tag_undef_t⟩,
  ⟨'S', tm_tag_undef_t⟩,
  ⟨'s', tm_tag_struct_t⟩
  ]

def map_ACTIONSCRIPT : List TMParserMapEntry :=
  [
  ⟨'f', tm_tag_function_t⟩,
  ⟨'c', tm_tag_class_t⟩,
  ⟨'i', tm_tag_interface_t⟩,
  ⟨'P', tm_tag_package_t⟩,
  ⟨'m', tm_tag_method_t⟩,
  ⟨'p', tm_tag_member_t⟩,
  ⟨'v', tm_tag_variable_t⟩,
  ⟨'l', tm_tag_variable_t⟩,
  ⟨'C', tm_tag_macro_t⟩,
  ⟨'I', tm_tag_externvar_t⟩,
  ⟨'x', tm_tag_other_t⟩
  ]

def map_NSIS : List TMParserMapEntry :=
  [
  ⟨'s', tm_tag_namespace_t⟩,
  ⟨'f', tm_tag_function_t⟩,
  ⟨'v', tm_tag_variable_t⟩,
  ⟨'d', tm_tag_undef_t⟩,
  ⟨'m', tm_tag_undef_t⟩,
  ⟨'S', tm_tag_undef_t⟩,
  ⟨'p', tm_tag_undef_t⟩,
  ⟨'l', tm_tag_undef_t⟩,
  ⟨'i', tm_tag_undef_t⟩
  ]

def map_MARKDOWN : List TMParserMapEntry :=
  [
  ⟨'v', tm_tag_variable_t⟩
  ]

def map_TXT2TAGS : List TMParserMapEntry :=
  [
  ⟨'s', tm_tag_member_t⟩
  ]

def map_ABC : List TMParserMapEntry :=
  [
  ⟨'s', tm_tag_member_t⟩
  ]

def map_VERILOG : List TMParserMapEntry :=
  [
  ⟨'c', tm_tag_variable_t⟩,
  ⟨'e', tm_tag_typedef_t⟩,
  ⟨'f', tm_tag_function_t⟩,
  ⟨'m', tm_tag_class_t⟩,
  ⟨'n', tm_tag_variable_t⟩,
  ⟨'p', tm_tag_variable_t⟩,
  ⟨'r', tm_tag_variable_t⟩,
  ⟨'t', tm_tag_function_t⟩
  ]

def map_R : List TMParserMapEntry :=
  [
  ⟨'f', tm_tag_function_t⟩,
  ⟨'l', tm_tag_other_t⟩,
  ⟨'s', tm_tag_other_t⟩
  ]

def map_COBOL : List TMParserMapEntry :=
  [
  ⟨'d', tm_tag_variable_t⟩,
  ⟨'D', tm_tag_interface_t⟩,
  ⟨'f', tm_tag_function_t⟩,
  ⟨'g', tm_tag_struct_t⟩,
  ⟨'p', tm_tag_macro_t⟩,
  ⟨'P', tm_tag_class_t⟩,
  ⟨'s', tm_tag_namespace_t⟩,
  ⟨'S', tm_tag_externvar_t⟩
  ]

def map_OBJC : List TMParserMapEntry :=
  [
  ⟨'i', tm_tag_interface_t⟩,
  ⟨'I', tm_tag_undef_t⟩,
  ⟨'P', tm_tag_undef_t⟩,
  ⟨'m', tm_tag_method_t⟩,
  ⟨'c', tm_tag_class_t⟩,
  ⟨'v', tm_tag_variable_t⟩,
  ⟨'E', tm_tag_field_t⟩,
  ⟨'f', tm_tag_function_t⟩,
  ⟨'p', tm_tag_undef_t⟩,
  ⟨'t', tm_tag_typedef_t⟩,
  ⟨'s', tm_tag_struct_t⟩,
  ⟨'e', tm_tag_enum_t⟩,
  ⟨'M', tm_tag_macro_t⟩,
  ⟨'C', tm_tag_undef_t⟩
  ]

def map_ASCIIDOC : List TMParserMapEntry :=
  [
  ⟨'c', tm_tag_namespace_t⟩,
  ⟨'s', tm_tag_member_t⟩,
  ⟨'S', tm_tag_macro_t⟩,
  ⟨'t', tm_tag_variable_t⟩,
  ⟨'T', tm_tag_struct_t⟩,
  ⟨'u', tm_tag_undef_t⟩,
  ⟨'a', tm_tag_undef_t⟩
  ]

def map_ABAQUS : List TMParserMapEntry :=
  [
  ⟨'p', tm_tag_class_t⟩,
  ⟨'a', tm_tag_member_t⟩,
  ⟨'s', tm_tag_interface_t⟩
  ]

def map_RUST : List TMParserMapEntry :=
  [
  ⟨'n', tm_tag_namespace_t⟩,
  ⟨'s', tm_tag_struct_t⟩,
  ⟨'i', tm_tag_interface_t⟩,
  ⟨'c', tm_tag_class_t⟩,
  ⟨'f', tm_tag_function_t⟩,
  ⟨'g', tm_tag_enum_t⟩,
  ⟨'t', tm_tag_typedef_t⟩,
  ⟨'v', tm_tag_variable_t⟩,
  ⟨'M', tm_tag_macro_t⟩,
  ⟨'m', tm_tag_field_t⟩,
  ⟨'e', tm_tag_enumerator_t⟩,
  ⟨'P', tm_tag_method_t⟩
  ]

def map_GO : List TMParserMapEntry :=
  [
  ⟨'p', tm_tag_namespace_t⟩,
  ⟨'f', tm_tag_function_t⟩,
  ⟨'c', tm_tag_macro_t⟩,
  ⟨'t', tm_tag_typedef_t⟩,
  ⟨'v', tm_tag_variable_t⟩,
  ⟨'s', tm_tag_struct_t⟩,
  ⟨'i', tm_tag_interface_t⟩,
  ⟨'m', tm_tag_member_t⟩,
  ⟨'M', tm_tag_undef_t⟩,
  ⟨'n', tm_tag_undef_t⟩,
  ⟨'u', tm_tag_undef_t⟩,
  ⟨'P', tm_tag_undef_t⟩,
  ⟨'a', tm_tag_undef_t⟩,
  ⟨'R', tm_tag_undef_t⟩
  ]

def map_JSON : List TMParserMapEntry :=
  [
  ⟨'o', tm_tag_member_t⟩,
  ⟨'a', tm_tag_member_t⟩,
  ⟨'n', tm_tag_member_t⟩,
  ⟨'s', tm_tag_member_t⟩,
  ⟨'b', tm_tag_member_t⟩,
  ⟨'z', tm_tag_member_t⟩
  ]

/-- Zephir, same as PHP. -/
def map_ZEPHIR : List TMParserMapEntry := map_PHP

def map_POWERSHELL : List TMParserMapEntry :=
  [
  ⟨'f', tm_tag_function_t⟩,
  ⟨'v', tm_tag_variable_t⟩
  ]

def map_JULIA : List TMParserMapEntry :=
  [
  ⟨'c', tm_tag_variable_t⟩,
  ⟨'f', tm_tag_function_t⟩,
  ⟨'g', tm_tag_member_t⟩,
  ⟨'m', tm_tag_macro_t⟩,
  ⟨'n', tm_tag_namespace_t⟩,
  ⟨'s', tm_tag_struct_t⟩,
  ⟨'t', tm_tag_typedef_t⟩,
  ⟨'x', tm_tag_externvar_t⟩
  ]

def map_CPREPROCESSOR : List TMParserMapEntry :=
  [
  ⟨'d', tm_tag_undef_t⟩,
  ⟨'h', tm_tag_undef_t⟩,
  ⟨'D', tm_tag_undef_t⟩
  ]

def map_GDSCRIPT : List TMParserMapEntry :=
  [
  ⟨'c', tm_tag_class_t⟩,
  ⟨'m', tm_tag_method_t⟩,
  ⟨'v', tm_tag_variable_t⟩,
  ⟨'C', tm_tag_variable_t⟩,
  ⟨'g', tm_tag_enum_t⟩,
  ⟨'e', tm_tag_variable_t⟩,
  ⟨'z', tm_tag_other_t⟩,
  ⟨'l', tm_tag_other_t⟩,
  ⟨'s', tm_tag_variable_t⟩
  ]

/-! ## The registry -/

/-- A kind map with its size (`TMParserMap`): the array `entries` of `size`
elements is the list, and `size` is its length. -/
abbrev TMParserMap := List TMParserMapEntry

/-- The designated initialiser `[TM_PARSER_lang] = {map_lang, G_N_ELEMENTS(map_lang)}`:
the index of the slot and what is stored there. -/
def MAP_ENTRY (lang : TMParserType) (map : List TMParserMapEntry) : TMParserType × TMParserMap :=
  (lang, map)

/-- The initialiser list of the array `parser_map`, one designated slot per
language. -/
def parser_map : List (TMParserType × TMParserMap) :=
  [
  MAP_ENTRY TM_PARSER_C map_C,
  MAP_ENTRY TM_PARSER_CPP map_CPP,
  MAP_ENTRY TM_PARSER_JAVA map_JAVA,
  MAP_ENTRY TM_PARSER_MAKEFILE map_MAKEFILE,
  MAP_ENTRY TM_PARSER_PASCAL map_PASCAL,
  MAP_ENTRY TM_PARSER_PERL map_PERL,
  MAP_ENTRY TM_PARSER_PHP map_PHP,
  MAP_ENTRY TM_PARSER_PYTHON map_PYTHON,
  MAP_ENTRY TM_PARSER_LATEX map_LATEX,
  MAP_ENTRY TM_PARSER_BIBTEX map_BIBTEX,
  MAP_ENTRY TM_PARSER_ASM map_ASM,
  MAP_ENTRY TM_PARSER_CONF map_CONF,
  MAP_ENTRY TM_PARSER_SQL map_SQL,
  MAP_ENTRY TM_PARSER_DOCBOOK map_DOCBOOK,
  MAP_ENTRY TM_PARSER_ERLANG map_ERLANG,
  MAP_ENTRY TM_PARSER_CSS map_CSS,
  MAP_ENTRY TM_PARSER_RUBY map_RUBY,
  MAP_ENTRY TM_PARSER_TCL map_TCL,
  MAP_ENTRY TM_PARSER_SH map_SH,
  MAP_ENTRY TM_PARSER_D map_D,
  MAP_ENTRY TM_PARSER_FORTRAN map_FORTRAN,
  MAP_ENTRY TM_PARSER_FERITE map_FERITE,
  MAP_ENTRY TM_PARSER_DIFF map_DIFF,
  MAP_ENTRY TM_PARSER_VHDL map_VHDL,
  MAP_ENTRY TM_PARSER_LUA map_LUA,
  MAP_ENTRY TM_PARSER_JAVASCRIPT map_JAVASCRIPT,
  MAP_ENTRY TM_PARSER_HASKELL map_HASKELL,
  MAP_ENTRY TM_PARSER_CSHARP map_CSHARP,
  MAP_ENTRY TM_PARSER_FREEBASIC map_FREEBASIC,
  MAP_ENTRY TM_PARSER_HAXE map_HAXE,
  MAP_ENTRY TM_PARSER_REST map_REST,
  MAP_ENTRY TM_PARSER_HTML map_HTML,
  MAP_ENTRY TM_PARSER_F77 map_F77,
  MAP_ENTRY TM_PARSER_GLSL map_GLSL,
  MAP_ENTRY TM_PARSER_MATLAB map_MATLAB,
  MAP_ENTRY TM_PARSER_VALA map_VALA,
  MAP_ENTRY TM_PARSER_ACTIONSCRIPT map_ACTIONSCRIPT,
  MAP_ENTRY TM_PARSER_NSIS map_NSIS,
  MAP_ENTRY TM_PARSER_MARKDOWN map_MARKDOWN,
  MAP_ENTRY TM_PARSER_TXT2TAGS map_TXT2TAGS,
  MAP_ENTRY TM_PARSER_ABC map_ABC,
  MAP_ENTRY TM_PARSER_VERILOG map_VERILOG,
  MAP_ENTRY TM_PARSER_R map_R,
  MAP_ENTRY TM_PARSER_COBOL map_COBOL,
  MAP_ENTRY TM_PARSER_OBJC map_OBJC,
  MAP_ENTRY TM_PARSER_ASCIIDOC map_ASCIIDOC,
  MAP_ENTRY TM_PARSER_ABAQUS map_ABAQUS,
  MAP_ENTRY TM_PARSER_RUST map_RUST,
  MAP_ENTRY TM_PARSER_GO map_GO,
  MAP_ENTRY TM_PARSER_JSON map_JSON,
  MAP_ENTRY TM_PARSER_ZEPHIR map_ZEPHIR,
  MAP_ENTRY TM_PARSER_POWERSHELL map_POWERSHELL,
  MAP_ENTRY TM_PARSER_JULIA map_JULIA,
  MAP_ENTRY TM_PARSER_CPREPROCESSOR map_CPREPROCESSOR,
  MAP_ENTRY TM_PARSER_GDSCRIPT map_GDSCRIPT
  ]

/-- The element `parser_map[lang]`.  The array has `TM_PARSER_COUNT` elements
(the static assertion after its definition); a slot that no initialiser
designates is zero-initialised, that is an empty map; an index outside the
array has no defined value. -/
def parser_map_at (lang : TMParserType) : Option TMParserMap :=
  if 0 ≤ lang ∧ lang < TM_PARSER_COUNT then
    match parser_map.find? (fun slot => decide (slot.1 = lang)) with
    | some slot => some slot.2
    | none => some []
  else
    none

/-! ## Map lookups -/

/-- The loop of `tm_parser_get_tag_type` over the entries of one map: the
type of the first entry whose kind is `kind`, else `tm_tag_undef_t`. -/
def get_tag_type_scan (kind : gchar) : TMParserMap → TMTagType
  | [] => tm_tag_undef_t
  | entry :: rest =>
    if entry.kind = kind then entry.type else get_tag_type_scan kind rest

/-- The function `tm_parser_get_tag_type (kind, lang)`. -/
def tm_parser_get_tag_type (kind : gchar) (lang : TMParserType) : Option TMTagType :=
  match parser_map_at lang with
  | some map => some (get_tag_type_scan kind map)
  | none => none

/-- The loop of `tm_parser_get_tag_kind` over the entries of one map: the
kind of the first entry whose type is `type`, else the NUL character. -/
def get_tag_kind_scan (type : TMTagType) : TMParserMap → gchar
  | [] => '\x00'
  | entry :: rest =>
    if entry.type = type then entry.kind else get_tag_kind_scan type rest

/-- The function `tm_parser_get_tag_kind (type, lang)`. -/
def tm_parser_get_tag_kind (type : TMTagType) (lang : TMParserType) : Option gchar :=
  match parser_map_at lang with
  | some map => some (get_tag_kind_scan type map)
  | none => none

/-- The loop of `tm_parser_enable_kind` over the entries of one map. -/
def enable_kind_scan (kind : gchar) : TMParserMap → Bool
  | [] => false
  | entry :: rest =>
    if entry.kind = kind then decide (entry.type ≠ tm_tag_undef_t)
    else enable_kind_scan kind rest

/-- The function `tm_parser_enable_kind (lang, kind)`: whether or not to
enable ctags kinds for the given language. -/
def tm_parser_enable_kind (lang : TMParserType) (kind : gchar) : Option Bool :=
  if lang ≥ TM_PARSER_COUNT then
    some false
  else
    match parser_map_at lang with
    | some map => some (enable_kind_scan kind map)
    | none => none

/-! ## The subparser table -/

/-- A `GHashTable` with `g_direct_hash` and `g_direct_equal`, keyed by
`GINT_TO_POINTER` of an integer: a finite map, kept as an association list
with at most one pair per key. -/
abbrev GHashTable (V : Type) := List (Int × V)

/-- The GLib call `g_hash_table_lookup`; `none` stands for the `NULL` that an
absent key gives. -/
def g_hash_table_lookup {V : Type} : GHashTable V → Int → Option V
  | [], _ => none
  | (k, v) :: rest, key => if k = key then some v else g_hash_table_lookup rest key

/-- The GLib call `g_hash_table_insert`: the value of an existing key is
replaced. -/
def g_hash_table_insert {V : Type} : GHashTable V → Int → V → GHashTable V
  | [], key, value => [(key, value)]
  | (k, v) :: rest, key, value =>
    if k = key then (key, value) :: rest
    else (k, v) :: g_hash_table_insert rest key value

/-- What the global `subparser_map` points to once allocated: for a host
language, for an embedded language, the array of rules. -/
abbrev SubparserTable := GHashTable (GHashTable (List TMSubparserMapEntry))

/-- The rules for JavaScript embedded in HTML. -/
def subparser_HTML_javascript_map : List TMSubparserMapEntry :=
  [
  ⟨tm_tag_function_t, tm_tag_function_t⟩
  ]

/-- The function `add_subparser`: the table for `lang` is looked up, created
and stored when absent, and the rules (a pointer array filled in order) are
stored in it under `sublang`. -/
def add_subparser (subparser_map : SubparserTable) (lang sublang : TMParserType)
    (map : List TMSubparserMapEntry) : SubparserTable :=
  let lang_map : GHashTable (List TMSubparserMapEntry) :=
    match g_hash_table_lookup subparser_map lang with
    | some found => found
    | none => []
  let mapping := map
  g_hash_table_insert subparser_map lang (g_hash_table_insert lang_map sublang mapping)

/-- The function `init_subparser_map`, with the macro `SUBPARSER_MAP_ENTRY`
expanded. -/
def init_subparser_map (subparser_map : SubparserTable) : SubparserTable :=
  add_subparser subparser_map TM_PARSER_HTML TM_PARSER_JAVASCRIPT subparser_HTML_javascript_map

/-- The loop of `tm_parser_get_subparser_type` over the rules of one pair. -/
def get_subparser_type_scan (type : TMTagType) : List TMSubparserMapEntry → TMTagType
  | [] => tm_tag_undef_t
  | entry :: rest =>
    if entry.orig_type = type then entry.new_type else get_subparser_type_scan type rest

/-- The part of `tm_parser_get_subparser_type` that follows the lazy
initialisation: the two table lookups and the loop over the rules. -/
def get_subparser_type_lookup (table : SubparserTable) (lang sublang : TMParserType)
    (type : TMTagType) : TMTagType :=
  match g_hash_table_lookup table lang with
  | none => tm_tag_undef_t
  | some lang_map =>
    match g_hash_table_lookup lang_map sublang with
    | none => tm_tag_undef_t
    | some mapping => get_subparser_type_scan type mapping

/-- The function `tm_parser_get_subparser_type (lang, sublang, type)`.  The
global `subparser_map` is explicit state: `none` is the `NULL` it starts as;
the result is the returned type and the state after the call. -/
def tm_parser_get_subparser_type (subparser_map : Option SubparserTable)
    (lang sublang : TMParserType) (type : TMTagType) :
    TMTagType × Option SubparserTable :=
  let table : SubparserTable :=
    match subparser_map with
    | some built => built
    | none => init_subparser_map []
  (get_subparser_type_lookup table lang sublang type, some table)

/-! ## The consistency verifier -/

/-- The fatal errors of `tm_parser_verify_type_mappings`, one per `g_error`
call, with the arguments of its message; the language stands for the name
`tm_ctags_get_lang_name (lang)` the message prints. -/
inductive VerifyError where
  | more_parsers
  | no_tag_types (lang : TMParserType)
  | different_number (tm : Nat) (ctags : Nat) (lang : TMParserType)
  | tm_not_in_ctags (kind : gchar) (lang : TMParserType)
  | ctags_not_in_tm (kind : gchar) (lang : TMParserType)
  | duplicate_tag_type (kind : gchar) (lang : TMParserType)
  deriving DecidableEq, Repr

deriving instance DecidableEq for Except

/-- The language a fatal error names in its message, if any. -/
def VerifyError.lang_named : VerifyError → Option TMParserType
  | .more_parsers => none
  | .no_tag_types lang => some lang
  | .different_number _ _ lang => some lang
  | .tm_not_in_ctags _ lang => some lang
  | .ctags_not_in_tm _ lang => some lang
  | .duplicate_tag_type _ lang => some lang

/-- The kind code a fatal error names in its message, if any. -/
def VerifyError.kind_named : VerifyError → Option gchar
  | .more_parsers => none
  | .no_tag_types _ => none
  | .different_number _ _ _ => none
  | .tm_not_in_ctags kind _ => some kind
  | .ctags_not_in_tm kind _ => some kind
  | .duplicate_tag_type kind _ => some kind

/-- The kind `map->entries[i].kind`; the verifier only reads it for
`i < map->size`. -/
def entry_kind (map : TMParserMap) (i : Nat) : gchar :=
  match map[i]? with
  | some entry => entry.kind
  | none => '\x00'

/-- The character `kinds[j]` of a C string; the terminating NUL is what
lies at its end. -/
def kinds_at (kinds : List gchar) (j : Nat) : gchar :=
  kinds.getD j '\x00'

/-- The inner loop `for (j = 0; j < map->size; j++)` at outer index `i`:
`todo` iterations are left, and the result is the final
`(ctags_found, tm_found)`. -/
def verify_inner (map : TMParserMap) (kinds : List gchar) (i : Nat) :
    Nat → Nat → Bool → Bool → Bool × Bool
  | 0, _, ctags_found, tm_found => (ctags_found, tm_found)
  | todo + 1, j, ctags_found, tm_found =>
    let ctags_found := if entry_kind map i = kinds_at kinds j then true else ctags_found
    let tm_found := if entry_kind map j = kinds_at kinds i then true else tm_found
    if ctags_found && tm_found then (ctags_found, tm_found)
    else verify_inner map kinds i todo (j + 1) ctags_found tm_found

/-- The value a `gchar` counter holds after `++`.  The signedness of `char`
is the platform's, so it is a parameter; the increment is done in `int` and
stored back in eight bits (wrapping, as the usual compilers do for the
signed case). -/
def gchar_incr (char_is_signed : Bool) (c : Int) : Int :=
  if char_is_signed then (c + 1 + 128) % 256 - 128 else (c + 1) % 256

/-- The statement `presence_map[(unsigned char) kind]++`. -/
def presence_incr (char_is_signed : Bool) (presence_map : List Int) (kind : gchar) : List Int :=
  let index := kind.toNat % 256
  presence_map.set index (gchar_incr char_is_signed (presence_map.getD index 0))

/-- The loop `for (i = 0; i < map->size; i++)` of the verifier: `todo`
iterations are left; an error aborts, otherwise the result is the final
`presence_map`. -/
def verify_entries (char_is_signed : Bool) (lang : TMParserType) (map : TMParserMap)
    (kinds : List gchar) : Nat → Nat → List Int → Except VerifyError (List Int)
  | 0, _, presence_map => .ok presence_map
  | todo + 1, i, presence_map =>
    let found := verify_inner map kinds i map.length 0 false false
    if !found.1 then
      .error (.tm_not_in_ctags (entry_kind map i) lang)
    else if !found.2 then
      .error (.ctags_not_in_tm (kinds_at kinds i) lang)
    else
      verify_entries char_is_signed lang map kinds todo (i + 1)
        (presence_incr char_is_signed presence_map (entry_kind map i))

/-- The counters after the statements `presence_map[...]++` of `todo`
iterations of the loop over the entries, from index `i` on. -/
def presence_after (char_is_signed : Bool) (map : TMParserMap) :
    Nat → Nat → List Int → List Int
  | 0, _, presence_map => presence_map
  | todo + 1, i, presence_map =>
    presence_after char_is_signed map todo (i + 1)
      (presence_incr char_is_signed presence_map (entry_kind map i))

/-- The loop `for (i = 0; i < sizeof(presence_map); i++)` over the counters
from index `i` on; `(gchar) i` is the character the message prints. -/
def verify_presence (lang : TMParserType) : List Int → Nat → Except VerifyError Unit
  | [], _ => .ok ()
  | count :: rest, i =>
    if count > 1 then .error (.duplicate_tag_type (Char.ofNat i) lang)
    else verify_presence lang rest (i + 1)

/-- The body of the loop over the languages in
`tm_parser_verify_type_mappings`: the checks made for the language `lang`
with map `map`, where `kinds` is the string `tm_ctags_get_lang_kinds (lang)`
the extractor declares. -/
def verify_lang (char_is_signed : Bool) (lang : TMParserType) (map : TMParserMap)
    (kinds : List gchar) : Except VerifyError Unit :=
  if map.length < 1 then
    .error (.no_tag_types lang)
  else if map.length ≠ kinds.length then
    .error (.different_number map.length kinds.length lang)
  else
    match verify_entries char_is_signed lang map kinds map.length 0 (List.replicate 256 0) with
    | .error e => .error e
    | .ok presence_map => verify_presence lang presence_map 0

/-- The loop `for (lang = 0; lang < TM_PARSER_COUNT; lang++)` of the
verifier from `lang` on, `todo` languages being left. -/
def verify_langs (char_is_signed : Bool) (tm_ctags_get_lang_kinds : TMParserType → List gchar) :
    Nat → TMParserType → Except VerifyError Unit
  | 0, _ => .ok ()
  | todo + 1, lang =>
    match verify_lang char_is_signed lang ((parser_map_at lang).getD [])
        (tm_ctags_get_lang_kinds lang) with
    | .error e => .error e
    | .ok _ => verify_langs char_is_signed tm_ctags_get_lang_kinds todo (lang + 1)

/-- The function `tm_parser_verify_type_mappings`.  The extractor is a
parameter: `tm_ctags_get_lang_count` is the number of languages it knows and
`tm_ctags_get_lang_kinds` gives the kind string of a language.  The result
is `.ok ()` when the function returns and the error of the `g_error` call
that aborts the process otherwise. -/
def tm_parser_verify_type_mappings (char_is_signed : Bool) (tm_ctags_get_lang_count : Nat)
    (tm_ctags_get_lang_kinds : TMParserType → List gchar) : Except VerifyError Unit :=
  if TM_PARSER_COUNT > (tm_ctags_get_lang_count : Int) then
    .error .more_parsers
  else
    verify_langs char_is_signed tm_ctags_get_lang_kinds TM_PARSER_COUNT.toNat 0

/-- A kind string function for the examples: C is given the kinds of its
map, and every other language the kinds of the map of C++ with `q` at index
2 in place of `f` and `f` at the end in place of `Z`. -/
def verify_witness_kinds : TMParserType → List gchar :=
  fun lang =>
    if lang = TM_PARSER_C then
      ['d', 'e', 'f', 'g', 'm', 'p', 's', 't', 'u', 'v', 'x', 'h', 'l', 'z', 'L', 'D']
    else
      ['d', 'e', 'q', 'g', 'm', 'p', 's', 't', 'u', 'v', 'x', 'h', 'l', 'z', 'L', 'D',
        'c', 'n', 'A', 'N', 'U', 'f']

/-- A kind string function for the examples: every language is given the
kinds of the map of C followed by `q`, one kind more than the map has. -/
def verify_longer_kinds : TMParserType → List gchar :=
  fun _ => ['d', 'e', 'f', 'g', 'm', 'p', 's', 't', 'u', 'v', 'x', 'h', 'l', 'z', 'L', 'D',
    'q']

/-- A kind string function for the examples: every language is given the
kinds of the map of C with `q` at the end in place of `D`. -/
def verify_orphan_kinds : TMParserType → List gchar :=
  fun _ => ['d', 'e', 'f', 'g', 'm', 'p', 's', 't', 'u', 'v', 'x', 'h', 'l', 'z', 'L', 'q']

/-- The function `tm_parser_langs_compatible (lang, other)`. -/
def tm_parser_langs_compatible (lang other : TMParserType) : Bool :=
  if lang = TM_PARSER_NONE ∨ other = TM_PARSER_NONE then
    false
  else if lang = other then
    true
  else if lang = TM_PARSER_C ∧ other = TM_PARSER_CPP then
    true
  else if lang = TM_PARSER_CPP ∧ other = TM_PARSER_C then
    true
  else
    false

/-! ## Scope separators -/

/-- The function `tm_parser_scope_separator (lang)`.  A C string is the list
of its characters before the terminating NUL. -/
def tm_parser_scope_separator (lang : TMParserType) : List gchar :=
  if lang = TM_PARSER_C ∨ lang = TM_PARSER_CPP ∨ lang = TM_PARSER_GLSL ∨
      lang = TM_PARSER_PHP ∨ lang = TM_PARSER_POWERSHELL ∨ lang = TM_PARSER_RUST ∨
      lang = TM_PARSER_ZEPHIR then
    [':', ':']
  else if lang = TM_PARSER_TXT2TAGS then
    ['"', '"']
  else if lang = TM_PARSER_ASCIIDOC ∨ lang = TM_PARSER_CONF ∨ lang = TM_PARSER_REST then
    ['\x03']
  else
    ['.']

/-- The function `tm_parser_scope_separator_printable (lang)`. -/
def tm_parser_scope_separator_printable (lang : TMParserType) : List gchar :=
  if lang = TM_PARSER_TXT2TAGS ∨ lang = TM_PARSER_ASCIIDOC ∨ lang = TM_PARSER_CONF ∨
      lang = TM_PARSER_REST then
    [' ', '>', ' ']
  else
    tm_parser_scope_separator lang

/-! ## Scope autocompletion and scope normalisation -/

/-- The GLib call `g_str_has_suffix (str, suffix)`: false when `str` is the
shorter, else the comparison of the last `strlen (suffix)` characters of
`str` with `suffix`. -/
def g_str_has_suffix (str suffix : List gchar) : Bool :=
  if str.length < suffix.length then false
  else decide (str.drop (str.length - suffix.length) = suffix)

/-- The function `tm_parser_scope_autocomplete_suffix (lang, str)`; the `gint`
it returns is an `Int`.  The cases C and C++ of the `switch` fall through to
`default` when no operator matches. -/
def tm_parser_scope_autocomplete_suffix (lang : TMParserType) (str : List gchar) : Int :=
  let sep := tm_parser_scope_separator lang
  if g_str_has_suffix str sep = true then
    (sep.length : Int)
  else if lang = TM_PARSER_C ∨ lang = TM_PARSER_CPP then
    if g_str_has_suffix str ['.'] = true then
      1
    else if g_str_has_suffix str ['-', '>'] = true then
      2
    else if lang = TM_PARSER_CPP ∧ g_str_has_suffix str ['-', '>', '*'] = true then
      3
    else
      0
  else
    0

/-- The C call `strstr (haystack, needle)`: the tail of `haystack` that
starts at the first occurrence of `needle`, `none` standing for `NULL`. -/
def strstr : List gchar → List gchar → Option (List gchar)
  | [], needle => if needle = [] then some [] else none
  | c :: rest, needle =>
    if needle.isPrefixOf (c :: rest) = true then some (c :: rest) else strstr rest needle

/-- The pieces of a non-empty string between the successive occurrences of
the delimiter, found from the left: `skip` characters of a delimiter just
found are still to be passed over and `piece` holds, last character first,
the piece being read. -/
def g_strsplit_walk (delimiter : List gchar) :
    List gchar → Nat → List gchar → List (List gchar)
  | [], _, piece => [piece.reverse]
  | _ :: rest, skip + 1, piece => g_strsplit_walk delimiter rest skip piece
  | c :: rest, 0, piece =>
    if delimiter.isPrefixOf (c :: rest) = true then
      piece.reverse :: g_strsplit_walk delimiter rest (delimiter.length - 1) []
    else
      g_strsplit_walk delimiter rest 0 (c :: piece)

/-- The GLib call `g_strsplit (string, delimiter, -1)` for a non-empty
delimiter: the empty string gives the empty vector, any other string gives
its pieces, the last one included. -/
def g_strsplit (string delimiter : List gchar) : List (List gchar) :=
  if string = [] then [] else g_strsplit_walk delimiter string 0 []

/-- The GLib call `g_strjoinv (separator, str_array)`. -/
def g_strjoinv (separator : List gchar) : List (List gchar) → List gchar
  | [] => []
  | [last] => last
  | first :: second :: rest => first ++ separator ++ g_strjoinv separator (second :: rest)

/-- The function `replace_string_if_present (haystack, needle, subst)`. -/
def replace_string_if_present (haystack needle subst : List gchar) : List gchar :=
  if (strstr haystack needle).isSome = true then
    g_strjoinv subst (g_strsplit haystack needle)
  else
    haystack

/-- The function `tm_parser_update_scope (lang, scope)`: return updated scope
or original scope if no change needed. -/
def tm_parser_update_scope (lang : TMParserType) (scope : List gchar) : List gchar :=
  if lang = TM_PARSER_PHP ∨ lang = TM_PARSER_ZEPHIR then
    replace_string_if_present scope ['\\'] [':', ':']
  else
    scope

/-- The scope string with every backslash replaced by two colons, written
after the words of the specification, to compare `tm_parser_update_scope`
with. -/
def replace_every_backslash : List gchar → List gchar
  | [] => []
  | c :: rest =>
    if c = '\\' then ':' :: ':' :: replace_every_backslash rest
    else c :: replace_every_backslash rest

/-! ## Roles and formatting -/

/-- The function `tm_parser_enable_role (lang, kind)`: whether or not to
enable ctags roles for the given language and kind. -/
def tm_parser_enable_role (lang : TMParserType) (kind : gchar) : Bool :=
  if lang = TM_PARSER_GDSCRIPT then
    if kind = 'c' then false else true
  else if lang = TM_PARSER_GO then
    if kind = 'p' then false else true
  else
    true

/-- The function `tm_parser_format_variable (lang, name, type)`; `none` is a
`NULL` string, and `g_strconcat` is concatenation. -/
def tm_parser_format_variable (lang : TMParserType) (name : List gchar)
    (type : Option (List gchar)) : Option (List gchar) :=
  match type with
  | none => none
  | some type =>
    if lang = TM_PARSER_GO then
      some (name ++ [' '] ++ type)
    else if lang = TM_PARSER_PASCAL ∨ lang = TM_PARSER_PYTHON then
      some (name ++ [':', ' '] ++ type)
    else
      some (type ++ [' '] ++ name)

/-- The separator the inner `switch` of `tm_parser_format_function` chooses
for a return type written after the function. -/
def format_function_sep (lang : TMParserType) : List gchar :=
  if lang = TM_PARSER_PASCAL then
    [':', ' ']
  else if lang = TM_PARSER_GDSCRIPT ∨ lang = TM_PARSER_PYTHON then
    [' ', '-', '>', ' ']
  else
    [' ']

/-- The function `tm_parser_format_function (lang, fname, args, retval, scope)`;
the `GString` is the list built by the successive appends and prepends. -/
def tm_parser_format_function (lang : TMParserType) (fname : List gchar)
    (args retval scope : Option (List gchar)) : Option (List gchar) :=
  match args with
  | none => none
  | some args =>
    let str : List gchar := []
    let str :=
      match scope with
      | some scope => (str ++ scope) ++ tm_parser_scope_separator_printable lang
      | none => str
    let str := str ++ fname
    let str := str ++ [' ']
    let str := str ++ args
    let str :=
      match retval with
      | some retval =>
        if lang = TM_PARSER_GDSCRIPT ∨ lang = TM_PARSER_GO ∨ lang = TM_PARSER_PASCAL ∨
            lang = TM_PARSER_PYTHON then
          (str ++ format_function_sep lang) ++ retval
        else
          retval ++ (' ' :: str)
      | none => str
    some str

/-- The scope-entry operators of a language, to compare
`tm_parser_scope_autocomplete_suffix` with: the scope separator of the
language, the member access and the pointer dereference for C and C++, and
the pointer-to-member dereference for C++ only. -/
def scope_operators (lang : TMParserType) : List (List gchar) :=
  [tm_parser_scope_separator lang] ++
    (if lang = TM_PARSER_C ∨ lang = TM_PARSER_CPP then [['.'], ['-', '>']] else []) ++
    (if lang = TM_PARSER_CPP then [['-', '>', '*']] else [])

/-- Whether a character is an ASCII control character (code below 32, or
127), as `iscntrl` of C has it. -/
def is_control (c : gchar) : Bool :=
  decide (c.toNat < 32) || decide (c.toNat = 127)

/-! ## Properties of the registry -/

theorem parser_map_designated :
    ∀ n : Nat, n < 55 →
      (parser_map.find? (fun slot => decide (slot.1 = (n : Int)))).isSome = true := by
  decide

/-- A language of the registry has a map, the one its initialiser designates. -/
theorem parser_map_at_some {lang : TMParserType} (h0 : 0 ≤ lang) (h1 : lang < TM_PARSER_COUNT) :
    ∃ map, parser_map_at lang = some map ∧ (lang, map) ∈ parser_map := by
  obtain ⟨n, rfl⟩ := Int.eq_ofNat_of_zero_le h0
  have hn : n < 55 := by
    have : (n : Int) < 55 := h1
    omega
  have hsome := parser_map_designated n hn
  obtain ⟨slot, hslot⟩ := Option.isSome_iff_exists.mp hsome
  have hkey : slot.1 = (n : Int) := by
    have := List.find?_some hslot
    simpa using this
  have hmem : slot ∈ parser_map := List.mem_of_find?_eq_some hslot
  refine ⟨slot.2, ?_, ?_⟩
  · unfold parser_map_at
    rw [if_pos ⟨h0, h1⟩, hslot]
  · rw [← hkey]
    exact hmem

theorem parser_map_at_range {lang : TMParserType} {map : TMParserMap}
    (h : parser_map_at lang = some map) : 0 ≤ lang ∧ lang < TM_PARSER_COUNT := by
  unfold parser_map_at at h
  by_cases hr : 0 ≤ lang ∧ lang < TM_PARSER_COUNT
  · exact hr
  · rw [if_neg hr] at h
    cases h

/-- Every index of the array is designated by an initialiser of `parser_map`. -/
theorem parser_map_at_mem {lang : TMParserType} {map : TMParserMap}
    (h : parser_map_at lang = some map) : (lang, map) ∈ parser_map := by
  obtain ⟨h0, h1⟩ := parser_map_at_range h
  obtain ⟨map2, h2, hmem⟩ := parser_map_at_some h0 h1
  rw [h] at h2
  cases h2
  exact hmem

theorem parser_map_kinds_nodup :
    ∀ slot ∈ parser_map, (slot.2.map (fun e => e.kind)).Nodup := by
  decide

theorem parser_map_kinds_not_nul :
    ∀ slot ∈ parser_map, ∀ e ∈ slot.2, e.kind ≠ '\x00' := by
  decide

/-! ## Properties of the lookups -/

theorem get_tag_type_scan_first (kind : gchar) (pre : TMParserMap) (e : TMParserMapEntry)
    (post : TMParserMap) (hkind : e.kind = kind) (hpre : ∀ x ∈ pre, x.kind ≠ kind) :
    get_tag_type_scan kind (pre ++ e :: post) = e.type := by
  induction pre with
  | nil => simp [get_tag_type_scan, hkind]
  | cons x rest ih =>
    have hx : x.kind ≠ kind := hpre x (List.mem_cons_self x rest)
    have hrest : ∀ y ∈ rest, y.kind ≠ kind := fun y hy => hpre y (List.mem_cons_of_mem x hy)
    simp [get_tag_type_scan, hx, ih hrest]

theorem get_tag_type_scan_absent (kind : gchar) (map : TMParserMap)
    (habs : ∀ e ∈ map, e.kind ≠ kind) : get_tag_type_scan kind map = tm_tag_undef_t := by
  induction map with
  | nil => rfl
  | cons x rest ih =>
    have hx : x.kind ≠ kind := habs x (List.mem_cons_self x rest)
    have hrest : ∀ y ∈ rest, y.kind ≠ kind := fun y hy => habs y (List.mem_cons_of_mem x hy)
    simp [get_tag_type_scan, hx, ih hrest]

theorem get_tag_kind_scan_first (type : TMTagType) (pre : TMParserMap) (e : TMParserMapEntry)
    (post : TMParserMap) (htype : e.type = type) (hpre : ∀ x ∈ pre, x.type ≠ type) :
    get_tag_kind_scan type (pre ++ e :: post) = e.kind := by
  induction pre with
  | nil => simp [get_tag_kind_scan, htype]
  | cons x rest ih =>
    have hx : x.type ≠ type := hpre x (List.mem_cons_self x rest)
    have hrest : ∀ y ∈ rest, y.type ≠ type := fun y hy => hpre y (List.mem_cons_of_mem x hy)
    simp [get_tag_kind_scan, hx, ih hrest]

theorem get_tag_kind_scan_absent (type : TMTagType) (map : TMParserMap)
    (habs : ∀ e ∈ map, e.type ≠ type) : get_tag_kind_scan type map = '\x00' := by
  induction map with
  | nil => rfl
  | cons x rest ih =>
    have hx : x.type ≠ type := habs x (List.mem_cons_self x rest)
    have hrest : ∀ y ∈ rest, y.type ≠ type := fun y hy => habs y (List.mem_cons_of_mem x hy)
    simp [get_tag_kind_scan, hx, ih hrest]

/-- When some entry has the type, the scan returns the kind of an entry of
the map. -/
theorem get_tag_kind_scan_mem (type : TMTagType) (map : TMParserMap)
    (hex : ∃ e ∈ map, e.type = type) :
    ∃ e ∈ map, e.type = type ∧ get_tag_kind_scan type map = e.kind := by
  induction map with
  | nil =>
    obtain ⟨e, he, _⟩ := hex
    cases he
  | cons x rest ih =>
    by_cases hx : x.type = type
    · exact ⟨x, List.mem_cons_self x rest, hx, by simp [get_tag_kind_scan, hx]⟩
    · have hrest : ∃ e ∈ rest, e.type = type := by
        obtain ⟨e, he, het⟩ := hex
        rcases List.mem_cons.mp he with rfl | he
        · exact absurd het hx
        · exact ⟨e, he, het⟩
      obtain ⟨e, he, het, hscan⟩ := ih hrest
      exact ⟨e, List.mem_cons_of_mem x he, het, by simp [get_tag_kind_scan, hx, hscan]⟩

theorem enable_kind_scan_eq (kind : gchar) (map : TMParserMap) :
    enable_kind_scan kind map = decide (get_tag_type_scan kind map ≠ tm_tag_undef_t) := by
  induction map with
  | nil => rfl
  | cons x rest ih =>
    by_cases hx : x.kind = kind
    · simp [enable_kind_scan, get_tag_type_scan, hx]
    · simp [enable_kind_scan, get_tag_type_scan, hx, ih]

/-- In a map without a repeated kind, the scan for a kind finds the type of
any entry that has the kind. -/
theorem get_tag_type_scan_of_mem (kind : gchar) (map : TMParserMap)
    (hnodup : (map.map (fun e => e.kind)).Nodup) (e : TMParserMapEntry) (he : e ∈ map)
    (hkind : e.kind = kind) : get_tag_type_scan kind map = e.type := by
  induction map with
  | nil => cases he
  | cons x rest ih =>
    rw [List.map_cons, List.nodup_cons] at hnodup
    rcases List.mem_cons.mp he with rfl | hmem
    · simp [get_tag_type_scan, hkind]
    · have hx : x.kind ≠ kind := by
        intro hxk
        apply hnodup.1
        rw [hxk, ← hkind]
        exact List.mem_map_of_mem (fun e => e.kind) hmem
      simp [get_tag_type_scan, hx, ih hnodup.2 hmem]

theorem tm_parser_get_tag_type_eq {lang : TMParserType} {map : TMParserMap}
    (h : parser_map_at lang = some map) (kind : gchar) :
    tm_parser_get_tag_type kind lang = some (get_tag_type_scan kind map) := by
  unfold tm_parser_get_tag_type
  rw [h]

theorem tm_parser_get_tag_kind_eq {lang : TMParserType} {map : TMParserMap}
    (h : parser_map_at lang = some map) (type : TMTagType) :
    tm_parser_get_tag_kind type lang = some (get_tag_kind_scan type map) := by
  unfold tm_parser_get_tag_kind
  rw [h]

theorem tm_parser_enable_kind_eq {lang : TMParserType} {map : TMParserMap}
    (h : parser_map_at lang = some map) (kind : gchar) :
    tm_parser_enable_kind lang kind = some (enable_kind_scan kind map) := by
  have hlt : ¬ lang ≥ TM_PARSER_COUNT := not_le.mpr (parser_map_at_range h).2
  unfold tm_parser_enable_kind
  rw [if_neg hlt, h]

theorem langs_compatible_true_iff (a b : TMParserType) :
    tm_parser_langs_compatible a b = true ↔
      a ≠ TM_PARSER_NONE ∧ b ≠ TM_PARSER_NONE ∧
        (a = b ∨ (a = TM_PARSER_C ∧ b = TM_PARSER_CPP) ∨
          (a = TM_PARSER_CPP ∧ b = TM_PARSER_C)) := by
  unfold tm_parser_langs_compatible
  by_cases hn : a = TM_PARSER_NONE ∨ b = TM_PARSER_NONE
  · rw [if_pos hn]
    constructor
    · intro h
      cases h
    · rintro ⟨ha, hb, _⟩
      rcases hn with h | h
      · exact absurd h ha
      · exact absurd h hb
  · rw [if_neg hn]
    have ha : a ≠ TM_PARSER_NONE := fun h => hn (Or.inl h)
    have hb : b ≠ TM_PARSER_NONE := fun h => hn (Or.inr h)
    by_cases hab : a = b
    · rw [if_pos hab]
      exact ⟨fun _ => ⟨ha, hb, Or.inl hab⟩, fun _ => rfl⟩
    · rw [if_neg hab]
      by_cases h1 : a = TM_PARSER_C ∧ b = TM_PARSER_CPP
      · rw [if_pos h1]
        exact ⟨fun _ => ⟨ha, hb, Or.inr (Or.inl h1)⟩, fun _ => rfl⟩
      · rw [if_neg h1]
        by_cases h2 : a = TM_PARSER_CPP ∧ b = TM_PARSER_C
        · rw [if_pos h2]
          exact ⟨fun _ => ⟨ha, hb, Or.inr (Or.inr h2)⟩, fun _ => rfl⟩
        · rw [if_neg h2]
          constructor
          · intro h
            cases h
          · rintro ⟨_, _, h | h | h⟩
            · exact absurd h hab
            · exact absurd h h1
            · exact absurd h h2

/-! ## Properties of the verifier -/

theorem entry_kind_mem {map : TMParserMap} {i : Nat} (hi : i < map.length) :
    ∃ e ∈ map, e.kind = entry_kind map i := by
  refine ⟨map[i], List.getElem_mem hi, ?_⟩
  unfold entry_kind
  rw [List.getElem?_eq_getElem hi]

theorem entry_kind_of_mem {map : TMParserMap} {e : TMParserMapEntry} (he : e ∈ map) :
    ∃ i, i < map.length ∧ entry_kind map i = e.kind := by
  obtain ⟨i, hi, hget⟩ := List.getElem_of_mem he
  refine ⟨i, hi, ?_⟩
  unfold entry_kind
  rw [List.getElem?_eq_getElem hi, hget]

theorem kinds_at_mem {kinds : List gchar} {j : Nat} (hj : j < kinds.length) :
    kinds_at kinds j ∈ kinds := by
  unfold kinds_at
  rw [List.getD_eq_getElem kinds _ hj]
  exact List.getElem_mem hj

theorem kinds_at_of_mem {kinds : List gchar} {c : gchar} (hc : c ∈ kinds) :
    ∃ j, j < kinds.length ∧ kinds_at kinds j = c := by
  obtain ⟨j, hj, hget⟩ := List.getElem_of_mem hc
  refine ⟨j, hj, ?_⟩
  unfold kinds_at
  rw [List.getD_eq_getElem kinds _ hj, hget]

theorem verify_inner_step (map : TMParserMap) (kinds : List gchar) (i todo j : Nat)
    (cf tf : Bool) :
    verify_inner map kinds i (todo + 1) j cf tf =
      if ((if entry_kind map i = kinds_at kinds j then true else cf) &&
          (if entry_kind map j = kinds_at kinds i then true else tf)) = true then
        ((if entry_kind map i = kinds_at kinds j then true else cf),
          (if entry_kind map j = kinds_at kinds i then true else tf))
      else
        verify_inner map kinds i todo (j + 1)
          (if entry_kind map i = kinds_at kinds j then true else cf)
          (if entry_kind map j = kinds_at kinds i then true else tf) := rfl

/-- The flag `ctags_found` ends true exactly when it started true or some
index of the inner loop has the kind of entry `i` in the kind string. -/
theorem verify_inner_fst (map : TMParserMap) (kinds : List gchar) (i : Nat) :
    ∀ (todo j : Nat) (cf tf : Bool),
      (verify_inner map kinds i todo j cf tf).1 = true ↔
        (cf = true ∨ ∃ k, j ≤ k ∧ k < j + todo ∧ entry_kind map i = kinds_at kinds k) := by
  intro todo
  induction todo with
  | zero =>
    intro j cf tf
    constructor
    · intro h
      exact Or.inl h
    · rintro (h | ⟨k, h1, h2, _⟩)
      · exact h
      · omega
  | succ n ih =>
    intro j cf tf
    rw [verify_inner_step]
    have hcf : (if entry_kind map i = kinds_at kinds j then true else cf) = true ↔
        (cf = true ∨ entry_kind map i = kinds_at kinds j) := by
      by_cases hA : entry_kind map i = kinds_at kinds j
      · simp [hA]
      · simp [hA]
    have hrange : (cf = true ∨ ∃ k, j ≤ k ∧ k < j + (n + 1) ∧
          entry_kind map i = kinds_at kinds k) ↔
        ((cf = true ∨ entry_kind map i = kinds_at kinds j) ∨
          ∃ k, j + 1 ≤ k ∧ k < j + 1 + n ∧ entry_kind map i = kinds_at kinds k) := by
      constructor
      · rintro (h | ⟨k, h1, h2, h3⟩)
        · exact Or.inl (Or.inl h)
        · by_cases hk : k = j
          · subst hk
            exact Or.inl (Or.inr h3)
          · exact Or.inr ⟨k, by omega, by omega, h3⟩
      · rintro ((h | h) | ⟨k, h1, h2, h3⟩)
        · exact Or.inl h
        · exact Or.inr ⟨j, le_refl j, by omega, h⟩
        · exact Or.inr ⟨k, by omega, by omega, h3⟩
    rw [hrange, ← hcf]
    generalize (if entry_kind map i = kinds_at kinds j then true else cf) = cf2
    generalize (if entry_kind map j = kinds_at kinds i then true else tf) = tf2
    by_cases hbrk : (cf2 && tf2) = true
    · rw [if_pos hbrk]
      rw [Bool.and_eq_true] at hbrk
      exact ⟨fun _ => Or.inl hbrk.1, fun _ => hbrk.1⟩
    · rw [if_neg hbrk, ih]

/-- The flag `tm_found` ends true exactly when it started true or some index
of the inner loop has, in the map, the character `i` of the kind string. -/
theorem verify_inner_snd (map : TMParserMap) (kinds : List gchar) (i : Nat) :
    ∀ (todo j : Nat) (cf tf : Bool),
      (verify_inner map kinds i todo j cf tf).2 = true ↔
        (tf = true ∨ ∃ k, j ≤ k ∧ k < j + todo ∧ entry_kind map k = kinds_at kinds i) := by
  intro todo
  induction todo with
  | zero =>
    intro j cf tf
    constructor
    · intro h
      exact Or.inl h
    · rintro (h | ⟨k, h1, h2, _⟩)
      · exact h
      · omega
  | succ n ih =>
    intro j cf tf
    rw [verify_inner_step]
    have htf : (if entry_kind map j = kinds_at kinds i then true else tf) = true ↔
        (tf = true ∨ entry_kind map j = kinds_at kinds i) := by
      by_cases hB : entry_kind map j = kinds_at kinds i
      · simp [hB]
      · simp [hB]
    have hrange : (tf = true ∨ ∃ k, j ≤ k ∧ k < j + (n + 1) ∧
          entry_kind map k = kinds_at kinds i) ↔
        ((tf = true ∨ entry_kind map j = kinds_at kinds i) ∨
          ∃ k, j + 1 ≤ k ∧ k < j + 1 + n ∧ entry_kind map k = kinds_at kinds i) := by
      constructor
      · rintro (h | ⟨k, h1, h2, h3⟩)
        · exact Or.inl (Or.inl h)
        · by_cases hk : k = j
          · subst hk
            exact Or.inl (Or.inr h3)
          · exact Or.inr ⟨k, by omega, by omega, h3⟩
      · rintro ((h | h) | ⟨k, h1, h2, h3⟩)
        · exact Or.inl h
        · exact Or.inr ⟨j, le_refl j, by omega, h⟩
        · exact Or.inr ⟨k, by omega, by omega, h3⟩
    rw [hrange, ← htf]
    generalize (if entry_kind map i = kinds_at kinds j then true else cf) = cf2
    generalize (if entry_kind map j = kinds_at kinds i then true else tf) = tf2
    by_cases hbrk : (cf2 && tf2) = true
    · rw [if_pos hbrk]
      rw [Bool.and_eq_true] at hbrk
      exact ⟨fun _ => Or.inl hbrk.2, fun _ => hbrk.2⟩
    · rw [if_neg hbrk, ih]

/-- What the inner loop finds for entry `i` of a map as long as the kind
string: whether the kind of entry `i` is declared. -/
theorem ctags_found_iff (map : TMParserMap) (kinds : List gchar) (i : Nat)
    (hlen : map.length = kinds.length) :
    (verify_inner map kinds i map.length 0 false false).1 = true ↔
      entry_kind map i ∈ kinds := by
  rw [verify_inner_fst]
  constructor
  · rintro (h | ⟨k, _, hk, heq⟩)
    · cases h
    · rw [heq]
      exact kinds_at_mem (by omega)
  · intro hmem
    obtain ⟨k, hk, heq⟩ := kinds_at_of_mem hmem
    exact Or.inr ⟨k, Nat.zero_le k, by omega, heq.symm⟩

/-- What the inner loop finds for character `i` of the kind string: whether
it is the kind of an entry of the map. -/
theorem tm_found_iff (map : TMParserMap) (kinds : List gchar) (i : Nat) :
    (verify_inner map kinds i map.length 0 false false).2 = true ↔
      ∃ e ∈ map, e.kind = kinds_at kinds i := by
  rw [verify_inner_snd]
  constructor
  · rintro (h | ⟨k, _, hk, heq⟩)
    · cases h
    · rw [← heq]
      exact entry_kind_mem (by omega)
  · rintro ⟨e, he, heq⟩
    obtain ⟨k, hk, hkind⟩ := entry_kind_of_mem he
    exact Or.inr ⟨k, Nat.zero_le k, by omega, by rw [hkind, heq]⟩

theorem verify_entries_step (char_is_signed : Bool) (lang : TMParserType) (map : TMParserMap)
    (kinds : List gchar) (todo i : Nat) (presence_map : List Int) :
    verify_entries char_is_signed lang map kinds (todo + 1) i presence_map =
      if (!(verify_inner map kinds i map.length 0 false false).1) = true then
        .error (.tm_not_in_ctags (entry_kind map i) lang)
      else if (!(verify_inner map kinds i map.length 0 false false).2) = true then
        .error (.ctags_not_in_tm (kinds_at kinds i) lang)
      else
        verify_entries char_is_signed lang map kinds todo (i + 1)
          (presence_incr char_is_signed presence_map (entry_kind map i)) := rfl

/-- When the loop over the entries ends without an error, both flags were
found at every index it visited. -/
theorem verify_entries_ok_found (char_is_signed : Bool) (lang : TMParserType)
    (map : TMParserMap) (kinds : List gchar) :
    ∀ (todo i : Nat) (presence_map result : List Int),
      verify_entries char_is_signed lang map kinds todo i presence_map = .ok result →
      ∀ k, i ≤ k → k < i + todo →
        (verify_inner map kinds k map.length 0 false false).1 = true ∧
          (verify_inner map kinds k map.length 0 false false).2 = true := by
  intro todo
  induction todo with
  | zero =>
    intro i pm result _ k h1 h2
    omega
  | succ n ih =>
    intro i pm result hok k h1 h2
    rw [verify_entries_step] at hok
    by_cases hc : (verify_inner map kinds i map.length 0 false false).1 = true
    · by_cases ht : (verify_inner map kinds i map.length 0 false false).2 = true
      · rw [hc, ht] at hok
        simp only [Bool.not_true, Bool.false_eq_true, if_false] at hok
        by_cases hk : k = i
        · subst hk
          exact ⟨hc, ht⟩
        · exact ih (i + 1) _ result hok k (by omega) (by omega)
      · rw [Bool.not_eq_true] at ht
        rw [hc, ht] at hok
        simp at hok
    · rw [Bool.not_eq_true] at hc
      rw [hc] at hok
      simp at hok

/-- An error of the loop over the entries names the language checked. -/
theorem verify_entries_error_lang (char_is_signed : Bool) (lang : TMParserType)
    (map : TMParserMap) (kinds : List gchar) :
    ∀ (todo i : Nat) (presence_map : List Int) (err : VerifyError),
      verify_entries char_is_signed lang map kinds todo i presence_map = .error err →
      err.lang_named = some lang := by
  intro todo
  induction todo with
  | zero =>
    intro i pm err h
    cases h
  | succ n ih =>
    intro i pm err h
    rw [verify_entries_step] at h
    split at h
    · cases h
      rfl
    · split at h
      · cases h
        rfl
      · exact ih _ _ err h

/-- The loop stops at the first index whose character of the kind string is
missing from the map, when the entries up to it are declared and the earlier
characters are present. -/
theorem verify_entries_first_gap (char_is_signed : Bool) (lang : TMParserType)
    (map : TMParserMap) (kinds : List gchar) :
    ∀ (todo i m : Nat) (presence_map : List Int),
      i ≤ m → m < i + todo →
      (∀ k, i ≤ k → k < m →
        (verify_inner map kinds k map.length 0 false false).1 = true ∧
          (verify_inner map kinds k map.length 0 false false).2 = true) →
      (verify_inner map kinds m map.length 0 false false).1 = true →
      (verify_inner map kinds m map.length 0 false false).2 = false →
      verify_entries char_is_signed lang map kinds todo i presence_map =
        .error (.ctags_not_in_tm (kinds_at kinds m) lang) := by
  intro todo
  induction todo with
  | zero =>
    intro i m pm h1 h2
    omega
  | succ n ih =>
    intro i m pm h1 h2 hbefore hc ht
    rw [verify_entries_step]
    by_cases hm : m = i
    · subst hm
      rw [hc, ht]
      rfl
    · obtain ⟨hci, hti⟩ := hbefore i (le_refl i) (by omega)
      rw [hci, hti]
      simp only [Bool.not_true, Bool.false_eq_true, if_false]
      exact ih (i + 1) m _ (by omega) (by omega)
        (fun k hk1 hk2 => hbefore k (by omega) hk2) hc ht

theorem verify_presence_error_lang (lang : TMParserType) :
    ∀ (presence_map : List Int) (i : Nat) (err : VerifyError),
      verify_presence lang presence_map i = .error err → err.lang_named = some lang := by
  intro pm
  induction pm with
  | nil =>
    intro i err h
    cases h
  | cons c rest ih =>
    intro i err h
    unfold verify_presence at h
    split at h
    · cases h
      rfl
    · exact ih _ err h

/-- An error of the check of one language names that language. -/
theorem verify_lang_error_lang (char_is_signed : Bool) (lang : TMParserType)
    (map : TMParserMap) (kinds : List gchar) (err : VerifyError)
    (h : verify_lang char_is_signed lang map kinds = .error err) :
    err.lang_named = some lang := by
  unfold verify_lang at h
  split at h
  · cases h
    rfl
  · split at h
    · cases h
      rfl
    · split at h
      · rename_i e heq
        cases h
        exact verify_entries_error_lang char_is_signed lang map kinds _ _ _ _ heq
      · exact verify_presence_error_lang lang _ _ err h

/-- What a passed check of one language went through: the size tests, the
loop over the entries and the loop over the counters. -/
theorem verify_lang_ok_inv (char_is_signed : Bool) (lang : TMParserType)
    (map : TMParserMap) (kinds : List gchar)
    (h : verify_lang char_is_signed lang map kinds = .ok ()) :
    1 ≤ map.length ∧ map.length = kinds.length ∧
      ∃ presence_map,
        verify_entries char_is_signed lang map kinds map.length 0 (List.replicate 256 0) =
          .ok presence_map ∧
        verify_presence lang presence_map 0 = .ok () := by
  unfold verify_lang at h
  split at h
  · cases h
  · rename_i h1
    split at h
    · cases h
    · rename_i h2
      split at h
      · cases h
      · rename_i pm heq
        exact ⟨by omega, not_not.mp h2, pm, heq, h⟩

/-- A passed check of one language: same size, every kind of the map
declared, every declared kind in the map. -/
theorem verify_lang_ok_sound (char_is_signed : Bool) (lang : TMParserType)
    (map : TMParserMap) (kinds : List gchar)
    (h : verify_lang char_is_signed lang map kinds = .ok ()) :
    map ≠ [] ∧ map.length = kinds.length ∧
      (∀ e ∈ map, e.kind ∈ kinds) ∧ (∀ c ∈ kinds, ∃ e ∈ map, e.kind = c) := by
  obtain ⟨hpos, hlen, pm, hentries, _⟩ := verify_lang_ok_inv char_is_signed lang map kinds h
  have hfound := verify_entries_ok_found char_is_signed lang map kinds _ _ _ _ hentries
  refine ⟨?_, hlen, ?_, ?_⟩
  · intro hnil
    rw [hnil] at hpos
    simp at hpos
  · intro e he
    obtain ⟨i, hi, hkind⟩ := entry_kind_of_mem he
    rw [← hkind]
    exact (ctags_found_iff map kinds i hlen).mp (hfound i (Nat.zero_le i) (by omega)).1
  · intro c hc
    obtain ⟨i, hi, hat⟩ := kinds_at_of_mem hc
    rw [← hat]
    exact (tm_found_iff map kinds i).mp (hfound i (Nat.zero_le i) (by omega)).2

/-- When both flags are found at every index, the loop over the entries
ends without an error, with the counters incremented once per entry. -/
theorem verify_entries_ok_of_found (char_is_signed : Bool) (lang : TMParserType)
    (map : TMParserMap) (kinds : List gchar) :
    ∀ (todo i : Nat) (presence_map : List Int),
      (∀ k, i ≤ k → k < i + todo →
        (verify_inner map kinds k map.length 0 false false).1 = true ∧
          (verify_inner map kinds k map.length 0 false false).2 = true) →
      verify_entries char_is_signed lang map kinds todo i presence_map =
        .ok (presence_after char_is_signed map todo i presence_map) := by
  intro todo
  induction todo with
  | zero =>
    intro i pm _
    rfl
  | succ n ih =>
    intro i pm hfound
    obtain ⟨hc, ht⟩ := hfound i (le_refl i) (by omega)
    rw [verify_entries_step, hc, ht]
    simp only [Bool.not_true, Bool.false_eq_true, if_false]
    rw [ih (i + 1) _ (fun k h1 h2 => hfound k (by omega) (by omega))]
    rfl

theorem verify_presence_ok (lang : TMParserType) :
    ∀ (presence_map : List Int) (i : Nat), (∀ c ∈ presence_map, c ≤ 1) →
      verify_presence lang presence_map i = .ok () := by
  intro pm
  induction pm with
  | nil =>
    intro i _
    rfl
  | cons c rest ih =>
    intro i hall
    have hc : ¬ c > 1 := not_lt.mpr (hall c (List.mem_cons_self c rest))
    unfold verify_presence
    rw [if_neg hc]
    exact ih (i + 1) (fun d hd => hall d (List.mem_cons_of_mem c hd))

theorem verify_langs_step (char_is_signed : Bool) (kinds : TMParserType → List gchar)
    (todo : Nat) (lang : TMParserType) :
    verify_langs char_is_signed kinds (todo + 1) lang =
      match verify_lang char_is_signed lang ((parser_map_at lang).getD []) (kinds lang) with
      | .error e => .error e
      | .ok _ => verify_langs char_is_signed kinds todo (lang + 1) := rfl

/-- The loop over the languages aborts with the error of the first language
whose check fails. -/
theorem verify_langs_first_error (char_is_signed : Bool) (kinds : TMParserType → List gchar) :
    ∀ (todo : Nat) (start : TMParserType) (k : Nat) (err : VerifyError),
      k < todo →
      (∀ k2 : Nat, k2 < k →
        verify_lang char_is_signed (start + k2) ((parser_map_at (start + k2)).getD [])
          (kinds (start + k2)) = .ok ()) →
      verify_lang char_is_signed (start + k) ((parser_map_at (start + k)).getD [])
        (kinds (start + k)) = .error err →
      verify_langs char_is_signed kinds todo start = .error err := by
  intro todo
  induction todo with
  | zero =>
    intro start k err hk
    omega
  | succ n ih =>
    intro start k err hk hbefore herr
    rw [verify_langs_step]
    cases k with
    | zero =>
      simp only [Nat.cast_zero, add_zero] at herr
      rw [herr]
    | succ k0 =>
      have h0 := hbefore 0 (Nat.succ_pos k0)
      simp only [Nat.cast_zero, add_zero] at h0
      rw [h0]
      have hshift : ∀ j : Nat, start + 1 + (j : Int) = start + ((j + 1 : Nat) : Int) := by
        intro j
        push_cast
        ring
      apply ih (start + 1) k0 err (by omega)
      · intro k2 hk2
        rw [hshift k2]
        exact hbefore (k2 + 1) (by omega)
      · rw [hshift k0]
        exact herr

/-- The loop over the languages aborts when the check of some language it
visits fails. -/
theorem verify_langs_error (char_is_signed : Bool) (kinds : TMParserType → List gchar) :
    ∀ (todo : Nat) (start : TMParserType) (k : Nat),
      k < todo →
      (∃ err, verify_lang char_is_signed (start + k) ((parser_map_at (start + k)).getD [])
        (kinds (start + k)) = .error err) →
      ∃ err, verify_langs char_is_signed kinds todo start = .error err := by
  intro todo
  induction todo with
  | zero =>
    intro start k hk
    omega
  | succ n ih =>
    intro start k hk herr
    rw [verify_langs_step]
    cases hstart : verify_lang char_is_signed start ((parser_map_at start).getD [])
        (kinds start) with
    | error e => exact ⟨e, rfl⟩
    | ok u =>
      cases k with
      | zero =>
        obtain ⟨err, herr⟩ := herr
        simp only [Nat.cast_zero, add_zero] at herr
        rw [hstart] at herr
        cases herr
      | succ k0 =>
        have hshift : start + 1 + (k0 : Int) = start + ((k0 + 1 : Nat) : Int) := by
          push_cast
          ring
        apply ih (start + 1) k0 (by omega)
        rw [hshift]
        exact herr

set_option maxRecDepth 100000 in
theorem verify_lang_SH_ok : verify_lang true TM_PARSER_SH map_SH ['f'] = .ok () := by
  decide

theorem gchar_toNat_inj (c d : gchar) (h : c.toNat = d.toNat) : c = d := by
  rw [← Char.ofNat_toNat c, ← Char.ofNat_toNat d, h]

theorem gchar_incr_zero (char_is_signed : Bool) : gchar_incr char_is_signed 0 = 1 := by
  cases char_is_signed <;> rfl

theorem entry_kind_eq_getElem (map : TMParserMap) (k : Nat) (hk : k < map.length)
    (hk2 : k < (map.map fun e => e.kind).length) :
    entry_kind map k = (map.map fun e => e.kind)[k] := by
  unfold entry_kind
  rw [List.getElem?_eq_getElem hk, List.getElem_map]

/-- In a map whose kinds are bytes and pairwise distinct, two entries never
share a counter of `presence_map`. -/
theorem presence_index_distinct (map : TMParserMap)
    (hbyte : ∀ e ∈ map, e.kind.toNat < 256)
    (hnodup : (map.map fun e => e.kind).Nodup) :
    ∀ k1 k2, k1 < map.length → k2 < map.length → k1 ≠ k2 →
      (entry_kind map k1).toNat % 256 ≠ (entry_kind map k2).toNat % 256 := by
  intro k1 k2 h1 h2 hne heq
  obtain ⟨e1, he1, hk1⟩ := entry_kind_mem h1
  obtain ⟨e2, he2, hk2⟩ := entry_kind_mem h2
  have hb1 : (entry_kind map k1).toNat < 256 := by rw [← hk1]; exact hbyte e1 he1
  have hb2 : (entry_kind map k2).toNat < 256 := by rw [← hk2]; exact hbyte e2 he2
  rw [Nat.mod_eq_of_lt hb1, Nat.mod_eq_of_lt hb2] at heq
  have hkind := gchar_toNat_inj _ _ heq
  have h1m : k1 < (map.map fun e => e.kind).length := by rw [List.length_map]; exact h1
  have h2m : k2 < (map.map fun e => e.kind).length := by rw [List.length_map]; exact h2
  rw [entry_kind_eq_getElem map k1 h1 h1m, entry_kind_eq_getElem map k2 h2 h2m] at hkind
  exact hne ((hnodup.getElem_inj_iff).mp hkind)

/-- Every counter is at most one after the loop over the entries, when no
two entries share a counter and the counters of the entries to come are
still zero. -/
theorem presence_after_le_one (char_is_signed : Bool) (map : TMParserMap)
    (hidx : ∀ k1 k2, k1 < map.length → k2 < map.length → k1 ≠ k2 →
      (entry_kind map k1).toNat % 256 ≠ (entry_kind map k2).toNat % 256) :
    ∀ (todo i : Nat) (presence_map : List Int),
      i + todo ≤ map.length → presence_map.length = 256 →
      (∀ c ∈ presence_map, c ≤ 1) →
      (∀ k, i ≤ k → k < map.length →
        presence_map.getD ((entry_kind map k).toNat % 256) 0 = 0) →
      ∀ c ∈ presence_after char_is_signed map todo i presence_map, c ≤ 1 := by
  intro todo
  induction todo with
  | zero =>
    intro i pm _ _ hle _
    exact hle
  | succ n ih =>
    intro i pm hrange hlen hle hzero
    have hi : i < map.length := by omega
    have hstep : presence_incr char_is_signed pm (entry_kind map i) =
        pm.set ((entry_kind map i).toNat % 256) 1 := by
      unfold presence_incr
      simp only []
      rw [hzero i (le_refl i) hi, gchar_incr_zero]
    show ∀ c ∈ presence_after char_is_signed map n (i + 1)
      (presence_incr char_is_signed pm (entry_kind map i)), c ≤ 1
    rw [hstep]
    apply ih (i + 1) _ (by omega)
    · rw [List.length_set]
      exact hlen
    · intro c hc
      rcases List.mem_or_eq_of_mem_set hc with h | h
      · exact hle c h
      · rw [h]
    · intro k hk1 hk2
      have hne : (entry_kind map i).toNat % 256 ≠ (entry_kind map k).toNat % 256 :=
        hidx i k hi hk2 (by omega)
      rw [List.getD_eq_getElem?_getD, List.getElem?_set_ne hne, ← List.getD_eq_getElem?_getD]
      exact hzero k (by omega) hk2

/-- The check of one language passes a non-empty map of pairwise distinct
byte kinds that has the size of the kind string and the same kinds. -/
theorem verify_lang_complete (char_is_signed : Bool) (lang : TMParserType)
    (map : TMParserMap) (kinds : List gchar)
    (hbyte : ∀ e ∈ map, e.kind.toNat < 256)
    (hne : map ≠ []) (hlen : map.length = kinds.length)
    (hnodup : (map.map fun e => e.kind).Nodup)
    (horphan : ∀ e ∈ map, e.kind ∈ kinds) (hgap : ∀ c ∈ kinds, ∃ e ∈ map, e.kind = c) :
    verify_lang char_is_signed lang map kinds = .ok () := by
  have hpos : ¬ map.length < 1 := by
    have := List.length_pos.mpr hne
    omega
  have hfound : ∀ k, 0 ≤ k → k < 0 + map.length →
      (verify_inner map kinds k map.length 0 false false).1 = true ∧
        (verify_inner map kinds k map.length 0 false false).2 = true := by
    intro k _ hk
    have hk2 : k < map.length := by omega
    constructor
    · rw [ctags_found_iff map kinds k hlen]
      obtain ⟨e, he, hkind⟩ := entry_kind_mem hk2
      rw [← hkind]
      exact horphan e he
    · rw [tm_found_iff]
      exact hgap _ (kinds_at_mem (by omega))
  have hentries := verify_entries_ok_of_found char_is_signed lang map kinds map.length 0
    (List.replicate 256 0) hfound
  unfold verify_lang
  rw [if_neg hpos, if_neg (not_not.mpr hlen), hentries]
  apply verify_presence_ok
  apply presence_after_le_one char_is_signed map (presence_index_distinct map hbyte hnodup)
    map.length 0 _ (by omega) (List.length_replicate 256 0)
  · intro c hc
    rw [List.mem_replicate] at hc
    rw [hc.2]
    decide
  · intro k _ _
    rw [List.getD_eq_getElem?_getD, List.getElem?_replicate]
    split <;> rfl

/-- An error of the loop over the entries comes from the first index at
which a flag is not found: the undeclared kind of the map when `ctags_found`
is false, else the character of the kind string missing from the map. -/
theorem verify_entries_error_inv (char_is_signed : Bool) (lang : TMParserType)
    (map : TMParserMap) (kinds : List gchar) :
    ∀ (todo i : Nat) (presence_map : List Int) (err : VerifyError),
      verify_entries char_is_signed lang map kinds todo i presence_map = .error err →
      ∃ m, i ≤ m ∧ m < i + todo ∧
        (∀ k, i ≤ k → k < m →
          (verify_inner map kinds k map.length 0 false false).1 = true ∧
            (verify_inner map kinds k map.length 0 false false).2 = true) ∧
        (((verify_inner map kinds m map.length 0 false false).1 = false ∧
            err = .tm_not_in_ctags (entry_kind map m) lang) ∨
          ((verify_inner map kinds m map.length 0 false false).1 = true ∧
            (verify_inner map kinds m map.length 0 false false).2 = false ∧
            err = .ctags_not_in_tm (kinds_at kinds m) lang)) := by
  intro todo
  induction todo with
  | zero =>
    intro i pm err h
    cases h
  | succ n ih =>
    intro i pm err h
    rw [verify_entries_step] at h
    by_cases hc : (verify_inner map kinds i map.length 0 false false).1 = true
    · by_cases ht : (verify_inner map kinds i map.length 0 false false).2 = true
      · rw [hc, ht] at h
        simp only [Bool.not_true, Bool.false_eq_true, if_false] at h
        obtain ⟨m, hm1, hm2, hbefore, hcase⟩ := ih (i + 1) _ err h
        refine ⟨m, by omega, by omega, ?_, hcase⟩
        intro k hk1 hk2
        by_cases hki : k = i
        · subst hki
          exact ⟨hc, ht⟩
        · exact hbefore k (by omega) hk2
      · rw [Bool.not_eq_true] at ht
        rw [hc, ht] at h
        simp only [Bool.not_true, Bool.false_eq_true, if_false, Bool.not_false, if_true] at h
        refine ⟨i, le_refl i, by omega, fun k hk1 hk2 => by omega, Or.inr ⟨hc, ht, ?_⟩⟩
        cases h
        rfl
    · rw [Bool.not_eq_true] at hc
      rw [hc] at h
      simp only [Bool.not_false, if_true] at h
      refine ⟨i, le_refl i, by omega, fun k hk1 hk2 => by omega, Or.inl ⟨hc, ?_⟩⟩
      cases h
      rfl

/-- An error of the loop over the languages is the error of the check of
the first language that fails. -/
theorem verify_langs_error_inv (char_is_signed : Bool) (kinds : TMParserType → List gchar) :
    ∀ (todo : Nat) (start : TMParserType) (err : VerifyError),
      verify_langs char_is_signed kinds todo start = .error err →
      ∃ k : Nat, k < todo ∧
        (∀ k2 : Nat, k2 < k →
          verify_lang char_is_signed (start + k2) ((parser_map_at (start + k2)).getD [])
            (kinds (start + k2)) = .ok ()) ∧
        verify_lang char_is_signed (start + k) ((parser_map_at (start + k)).getD [])
          (kinds (start + k)) = .error err := by
  intro todo
  induction todo with
  | zero =>
    intro start err h
    cases h
  | succ n ih =>
    intro start err h
    rw [verify_langs_step] at h
    cases hstart : verify_lang char_is_signed start ((parser_map_at start).getD [])
        (kinds start) with
    | error e =>
      rw [hstart] at h
      refine ⟨0, Nat.succ_pos n, fun k2 hk2 => by omega, ?_⟩
      simp only [Nat.cast_zero, add_zero]
      rw [hstart]
      exact h
    | ok u =>
      rw [hstart] at h
      obtain ⟨k, hk, hbefore, herr⟩ := ih (start + 1) err h
      have hshift : ∀ j : Nat, start + 1 + (j : Int) = start + ((j + 1 : Nat) : Int) := by
        intro j
        push_cast
        ring
      refine ⟨k + 1, by omega, ?_, ?_⟩
      · intro k2 hk2
        cases k2 with
        | zero =>
          simp only [Nat.cast_zero, add_zero]
          exact hstart
        | succ j =>
          rw [← hshift j]
          exact hbefore j (by omega)
      · rw [← hshift k]
        exact herr

theorem g_str_has_suffix_iff (str suffix : List gchar) :
    g_str_has_suffix str suffix = true ↔ suffix <:+ str := by
  unfold g_str_has_suffix
  by_cases hlen : str.length < suffix.length
  · rw [if_pos hlen]
    constructor
    · intro h
      cases h
    · intro h
      have := h.length_le
      omega
  · rw [if_neg hlen, decide_eq_true_iff, List.suffix_iff_eq_drop]
    exact eq_comm

theorem suffix_append_iff (p t suffix : List gchar) (hlen : suffix.length ≤ t.length) :
    suffix <:+ p ++ t ↔ suffix <:+ t := by
  constructor
  · intro h
    exact List.suffix_of_suffix_length_le h (List.suffix_append p t) hlen
  · intro h
    exact h.trans (List.suffix_append p t)

theorem g_str_has_suffix_append (p t suffix : List gchar) (hlen : suffix.length ≤ t.length) :
    g_str_has_suffix (p ++ t) suffix = g_str_has_suffix t suffix := by
  rw [Bool.eq_iff_iff, g_str_has_suffix_iff, g_str_has_suffix_iff,
    suffix_append_iff p t suffix hlen]

theorem tm_parser_scope_separator_cases (lang : TMParserType) :
    tm_parser_scope_separator lang = [':', ':'] ∨
      tm_parser_scope_separator lang = ['"', '"'] ∨
      tm_parser_scope_separator lang = ['\x03'] ∨
      tm_parser_scope_separator lang = ['.'] := by
  unfold tm_parser_scope_separator
  split
  · exact Or.inl rfl
  · split
    · exact Or.inr (Or.inl rfl)
    · split
      · exact Or.inr (Or.inr (Or.inl rfl))
      · exact Or.inr (Or.inr (Or.inr rfl))

theorem tm_parser_scope_separator_length_pos (lang : TMParserType) :
    0 < (tm_parser_scope_separator lang).length := by
  rcases tm_parser_scope_separator_cases lang with h | h | h | h <;> rw [h] <;> decide

theorem mem_scope_operators (lang : TMParserType) (op : List gchar) :
    op ∈ scope_operators lang ↔
      (op = tm_parser_scope_separator lang ∨
        ((lang = TM_PARSER_C ∨ lang = TM_PARSER_CPP) ∧ (op = ['.'] ∨ op = ['-', '>'])) ∨
        (lang = TM_PARSER_CPP ∧ op = ['-', '>', '*'])) := by
  unfold scope_operators
  by_cases hc : lang = TM_PARSER_C ∨ lang = TM_PARSER_CPP
  · by_cases hp : lang = TM_PARSER_CPP
    · simp [hc, hp, or_assoc]
    · simp [hc, hp]
  · have hp : ¬ lang = TM_PARSER_CPP := fun h => hc (Or.inr h)
    simp [hc, hp]

/-- The value of `tm_parser_scope_autocomplete_suffix`, with the tests
`g_str_has_suffix` read as suffix relations. -/
theorem tm_parser_scope_autocomplete_suffix_eq (lang : TMParserType) (str : List gchar) :
    tm_parser_scope_autocomplete_suffix lang str =
      if tm_parser_scope_separator lang <:+ str then
        ((tm_parser_scope_separator lang).length : Int)
      else if lang = TM_PARSER_C ∨ lang = TM_PARSER_CPP then
        if ['.'] <:+ str then 1
        else if ['-', '>'] <:+ str then 2
        else if lang = TM_PARSER_CPP ∧ ['-', '>', '*'] <:+ str then 3
        else 0
      else 0 := by
  unfold tm_parser_scope_autocomplete_suffix
  simp only [g_str_has_suffix_iff]

theorem strstr_single_isSome (d : gchar) (str : List gchar) :
    (strstr str [d]).isSome = true ↔ d ∈ str := by
  induction str with
  | nil => simp [strstr]
  | cons c rest ih =>
    unfold strstr
    by_cases hc : d = c
    · subst hc
      simp [List.isPrefixOf]
    · have hc2 : ¬ c = d := fun h => hc h.symm
      simp [List.isPrefixOf, hc, hc2, ih]

theorem g_strsplit_walk_ne_nil (delimiter : List gchar) :
    ∀ (str : List gchar) (skip : Nat) (piece : List gchar),
      g_strsplit_walk delimiter str skip piece ≠ [] := by
  intro str
  induction str with
  | nil =>
    intro skip piece
    simp [g_strsplit_walk]
  | cons c rest ih =>
    intro skip piece
    cases skip with
    | zero =>
      unfold g_strsplit_walk
      split
      · simp
      · exact ih 0 _
    | succ n =>
      unfold g_strsplit_walk
      exact ih n piece

theorem g_strjoinv_cons (separator first : List gchar) (rest : List (List gchar))
    (hrest : rest ≠ []) :
    g_strjoinv separator (first :: rest) = first ++ separator ++ g_strjoinv separator rest := by
  cases rest with
  | nil => exact absurd rfl hrest
  | cons second more => rfl

/-- Splitting at the backslashes and joining with two colons replaces every
backslash. -/
theorem g_strjoinv_split_backslash :
    ∀ (str piece : List gchar),
      g_strjoinv [':', ':'] (g_strsplit_walk ['\\'] str 0 piece) =
        piece.reverse ++ replace_every_backslash str := by
  intro str
  induction str with
  | nil =>
    intro piece
    simp [g_strsplit_walk, g_strjoinv, replace_every_backslash]
  | cons c rest ih =>
    intro piece
    by_cases hc : c = '\\'
    · subst hc
      have hwalk : g_strsplit_walk ['\\'] ('\\' :: rest) 0 piece =
          piece.reverse :: g_strsplit_walk ['\\'] rest 0 [] := by
        simp [g_strsplit_walk, List.isPrefixOf]
      rw [hwalk, g_strjoinv_cons _ _ _ (g_strsplit_walk_ne_nil _ _ _ _), ih []]
      simp [replace_every_backslash]
    · have hc2 : ¬ '\\' = c := fun h => hc h.symm
      have hwalk : g_strsplit_walk ['\\'] (c :: rest) 0 piece =
          g_strsplit_walk ['\\'] rest 0 (c :: piece) := by
        simp [g_strsplit_walk, List.isPrefixOf, hc2]
      rw [hwalk, ih (c :: piece)]
      simp [replace_every_backslash, hc]

theorem replace_every_backslash_absent (str : List gchar) (habs : '\\' ∉ str) :
    replace_every_backslash str = str := by
  induction str with
  | nil => rfl
  | cons c rest ih =>
    have hc : ¬ c = '\\' := fun h => habs (h ▸ List.mem_cons_self c rest)
    have hrest : '\\' ∉ rest := fun h => habs (List.mem_cons_of_mem c h)
    simp [replace_every_backslash, hc, ih hrest]

theorem replace_string_if_present_backslash (str : List gchar) :
    replace_string_if_present str ['\\'] [':', ':'] = replace_every_backslash str := by
  unfold replace_string_if_present
  by_cases hmem : '\\' ∈ str
  · have hne : str ≠ [] := by
      intro h
      rw [h] at hmem
      cases hmem
    rw [if_pos ((strstr_single_isSome _ _).mpr hmem)]
    unfold g_strsplit
    rw [if_neg hne, g_strjoinv_split_backslash]
    rfl
  · have hnot : ¬ (strstr str ['\\']).isSome = true := fun h =>
      hmem ((strstr_single_isSome _ _).mp h)
    rw [if_neg hnot, replace_every_backslash_absent str hmem]

theorem tm_parser_scope_separator_printable_ok (lang : TMParserType) :
    tm_parser_scope_separator_printable lang ≠ [] ∧
      ∀ c ∈ tm_parser_scope_separator_printable lang, is_control c = false := by
  unfold tm_parser_scope_separator_printable
  by_cases hp : lang = TM_PARSER_TXT2TAGS ∨ lang = TM_PARSER_ASCIIDOC ∨
      lang = TM_PARSER_CONF ∨ lang = TM_PARSER_REST
  · rw [if_pos hp]
    decide
  · rw [if_neg hp]
    unfold tm_parser_scope_separator
    split
    · decide
    · rename_i h1
      split
      · rename_i h2
        exact absurd (Or.inl h2) hp
      · split
        · rename_i h3
          rcases h3 with h | h | h
          · exact absurd (Or.inr (Or.inl h)) hp
          · exact absurd (Or.inr (Or.inr (Or.inl h))) hp
          · exact absurd (Or.inr (Or.inr (Or.inr h))) hp
        · decide

/-! ## Properties used by the relations between lookups -/

theorem get_tag_type_scan_append_of_mem (kind : gchar) (pre post : TMParserMap)
    (hex : ∃ e ∈ pre, e.kind = kind) :
    get_tag_type_scan kind (pre ++ post) = get_tag_type_scan kind pre := by
  induction pre with
  | nil =>
    obtain ⟨e, he, _⟩ := hex
    cases he
  | cons x rest ih =>
    by_cases hx : x.kind = kind
    · simp [get_tag_type_scan, hx]
    · have hrest : ∃ e ∈ rest, e.kind = kind := by
        obtain ⟨e, he, hk⟩ := hex
        rcases List.mem_cons.mp he with rfl | he
        · exact absurd hk hx
        · exact ⟨e, he, hk⟩
      simp [get_tag_type_scan, hx, ih hrest]

theorem get_tag_kind_scan_append_of_mem (type : TMTagType) (pre post : TMParserMap)
    (hex : ∃ e ∈ pre, e.type = type) :
    get_tag_kind_scan type (pre ++ post) = get_tag_kind_scan type pre := by
  induction pre with
  | nil =>
    obtain ⟨e, he, _⟩ := hex
    cases he
  | cons x rest ih =>
    by_cases hx : x.type = type
    · simp [get_tag_kind_scan, hx]
    · have hrest : ∃ e ∈ rest, e.type = type := by
        obtain ⟨e, he, ht⟩ := hex
        rcases List.mem_cons.mp he with rfl | he
        · exact absurd ht hx
        · exact ⟨e, he, ht⟩
      simp [get_tag_kind_scan, hx, ih hrest]

/-- A scan for a type that does not end on the NUL character found an entry
of that type. -/
theorem get_tag_kind_scan_found (type : TMTagType) (map : TMParserMap)
    (hnul : get_tag_kind_scan type map ≠ '\x00') : ∃ e ∈ map, e.type = type := by
  by_contra hnone
  apply hnul
  apply get_tag_kind_scan_absent
  intro e he ht
  exact hnone ⟨e, he, ht⟩

/-- The map of C++ is the map of C followed by the kinds only C++ has. -/
theorem map_CPP_eq_append :
    map_CPP = map_C ++ [⟨'c', tm_tag_class_t⟩, ⟨'n', tm_tag_namespace_t⟩,
      ⟨'A', tm_tag_undef_t⟩, ⟨'N', tm_tag_undef_t⟩, ⟨'U', tm_tag_undef_t⟩,
      ⟨'Z', tm_tag_undef_t⟩] := rfl

theorem replace_every_backslash_clean (str : List gchar) :
    '\\' ∉ replace_every_backslash str := by
  induction str with
  | nil => simp [replace_every_backslash]
  | cons c rest ih =>
    by_cases hc : c = '\\'
    · simp only [replace_every_backslash, hc, if_true]
      intro hmem
      rcases List.mem_cons.mp hmem with h | hmem
      · revert h
        decide
      · rcases List.mem_cons.mp hmem with h | hmem
        · revert h
          decide
        · exact ih hmem
    · simp only [replace_every_backslash, hc, if_false]
      intro hmem
      rcases List.mem_cons.mp hmem with h | hmem
      · exact hc h.symm
      · exact ih hmem

/-! ## Main results -/

/-- C1. For a language of the registry and a kind code, the function
`tm_parser_get_tag_type` returns the type of the first entry of the map of
the language whose kind is the code, and `tm_tag_undef_t` when no entry has
it; kind `f` of Python is a function and kind `Z` of Rust is undefined. -/
theorem tm_parser_get_tag_type_first_match (lang : TMParserType) (kind : gchar)
    (h0 : 0 ≤ lang) (h1 : lang < TM_PARSER_COUNT) :
    ∃ map, parser_map_at lang = some map ∧ (lang, map) ∈ parser_map ∧
      (∀ pre e post, map = pre ++ e :: post → e.kind = kind → (∀ x ∈ pre, x.kind ≠ kind) →
        tm_parser_get_tag_type kind lang = some e.type) ∧
      ((∀ e ∈ map, e.kind ≠ kind) →
        tm_parser_get_tag_type kind lang = some tm_tag_undef_t) ∧
      tm_parser_get_tag_type 'f' TM_PARSER_PYTHON = some tm_tag_function_t ∧
      tm_parser_get_tag_type 'Z' TM_PARSER_RUST = some tm_tag_undef_t := by
  obtain ⟨map, hmap, hmem⟩ := parser_map_at_some h0 h1
  refine ⟨map, hmap, hmem, ?_, ?_, by decide, by decide⟩
  · intro pre e post hsplit hkind hpre
    rw [tm_parser_get_tag_type_eq hmap, hsplit,
      get_tag_type_scan_first kind pre e post hkind hpre]
  · intro habs
    rw [tm_parser_get_tag_type_eq hmap, get_tag_type_scan_absent kind map habs]

/-- Witness of C1 at Python and kind `f`, the second entry of its map. -/
theorem tm_parser_get_tag_type_first_match_witness :
    0 ≤ TM_PARSER_PYTHON ∧ TM_PARSER_PYTHON < TM_PARSER_COUNT ∧
      tm_parser_get_tag_type 'f' TM_PARSER_PYTHON = some tm_tag_function_t := by
  refine ⟨by decide, by decide, ?_⟩
  obtain ⟨map, hmap, _, hfirst, _⟩ :=
    tm_parser_get_tag_type_first_match TM_PARSER_PYTHON 'f' (by decide) (by decide)
  have hpy : parser_map_at TM_PARSER_PYTHON = some map_PYTHON := by decide
  rw [hpy] at hmap
  cases hmap
  exact hfirst [⟨'c', tm_tag_class_t⟩] ⟨'f', tm_tag_function_t⟩
    [⟨'m', tm_tag_method_t⟩, ⟨'v', tm_tag_variable_t⟩, ⟨'x', tm_tag_externvar_t⟩]
    rfl rfl (by decide)

/-- C2. The array `parser_map` has 55 designated slots, and in the map of
every language of the registry the kind codes are pairwise distinct; the
maps shared by two languages (Fortran and F77, Ferite and GLSL, Zephir and
PHP) are among them. -/
theorem parser_map_no_duplicate_kind (lang : TMParserType)
    (h0 : 0 ≤ lang) (h1 : lang < TM_PARSER_COUNT) :
    parser_map.length = 55 ∧
      (∃ map, parser_map_at lang = some map ∧ (lang, map) ∈ parser_map ∧
        (map.map (fun e => e.kind)).Nodup) ∧
      parser_map_at TM_PARSER_FORTRAN = parser_map_at TM_PARSER_F77 ∧
      parser_map_at TM_PARSER_FERITE = parser_map_at TM_PARSER_GLSL ∧
      parser_map_at TM_PARSER_ZEPHIR = parser_map_at TM_PARSER_PHP := by
  obtain ⟨map, hmap, hmem⟩ := parser_map_at_some h0 h1
  exact ⟨by decide, ⟨map, hmap, hmem, parser_map_kinds_nodup (lang, map) hmem⟩,
    by decide, by decide, by decide⟩

/-- Witness of C2 at Fortran, whose map is the one of F77. -/
theorem parser_map_no_duplicate_kind_witness :
    0 ≤ TM_PARSER_FORTRAN ∧ TM_PARSER_FORTRAN < TM_PARSER_COUNT ∧
      (map_F77.map (fun e => e.kind)).Nodup := by
  refine ⟨by decide, by decide, ?_⟩
  obtain ⟨_, ⟨map, hmap, _, hnodup⟩, _⟩ :=
    parser_map_no_duplicate_kind TM_PARSER_FORTRAN (by decide) (by decide)
  have hf : parser_map_at TM_PARSER_FORTRAN = some map_F77 := by decide
  rw [hf] at hmap
  cases hmap
  exact hnodup

/-- C3. When the check that `tm_parser_verify_type_mappings` makes for one
language raises no fatal error, the map is not empty, it has as many entries
as the kind string has characters, every kind of the map occurs in the kind
string and every character of the kind string is the kind of an entry: the
two sets of kind codes are equal. -/
theorem verify_lang_ok_bijection_on_kinds (char_is_signed : Bool) (lang : TMParserType)
    (map : TMParserMap) (kinds : List gchar)
    (h : verify_lang char_is_signed lang map kinds = .ok ()) :
    map ≠ [] ∧ map.length = kinds.length ∧
      (∀ e ∈ map, e.kind ∈ kinds) ∧ (∀ c ∈ kinds, ∃ e ∈ map, e.kind = c) ∧
      {c : gchar | ∃ e ∈ map, e.kind = c} = {c : gchar | c ∈ kinds} := by
  obtain ⟨hne, hlen, horphan, hgap⟩ := verify_lang_ok_sound char_is_signed lang map kinds h
  refine ⟨hne, hlen, horphan, hgap, ?_⟩
  ext c
  constructor
  · rintro ⟨e, he, rfl⟩
    exact horphan e he
  · intro hc
    exact hgap c hc

/-- Witness of C3: the map of the shell parser against the kind string `f`. -/
theorem verify_lang_ok_bijection_on_kinds_witness :
    verify_lang true TM_PARSER_SH map_SH ['f'] = .ok () ∧
      map_SH ≠ [] ∧ map_SH.length = ['f'].length ∧
      (∀ e ∈ map_SH, e.kind ∈ ['f']) ∧ (∀ c ∈ ['f'], ∃ e ∈ map_SH, e.kind = c) ∧
      {c : gchar | ∃ e ∈ map_SH, e.kind = c} = {c : gchar | c ∈ ['f']} :=
  ⟨verify_lang_SH_ok,
    verify_lang_ok_bijection_on_kinds true TM_PARSER_SH map_SH ['f'] verify_lang_SH_ok⟩

/-- C4, as the code has it. When the map of a language of the registry omits
a kind code that the extractor declares for it, the check of that language
fails with an error naming the language, and the verifier fails fatally. The
verifier stops at the first failing test of the first failing language: its
error names that language and the omitted code if and only if the extractor
knows enough languages, no earlier language fails, the map has the size of
the kind string, and the code stands in the kind string at the first index
`i` where a test fails, the entries of the map up to `i` being declared; the
error is then the one for a kind found in ctags but not in the map. -/
theorem verify_omitted_kind_fails (char_is_signed : Bool) (tm_ctags_get_lang_count : Nat)
    (tm_ctags_get_lang_kinds : TMParserType → List gchar) (lang : TMParserType)
    (map : TMParserMap) (c : gchar)
    (hmap : parser_map_at lang = some map)
    (hdecl : c ∈ tm_ctags_get_lang_kinds lang)
    (homit : ∀ e ∈ map, e.kind ≠ c) :
    (∃ err, verify_lang char_is_signed lang map (tm_ctags_get_lang_kinds lang) = .error err ∧
        err.lang_named = some lang) ∧
      ∃ err, tm_parser_verify_type_mappings char_is_signed tm_ctags_get_lang_count
          tm_ctags_get_lang_kinds = .error err ∧
        ((err.lang_named = some lang ∧ err.kind_named = some c) ↔
          (TM_PARSER_COUNT ≤ (tm_ctags_get_lang_count : Int) ∧
            (∀ l map_l, l < lang → parser_map_at l = some map_l →
              verify_lang char_is_signed l map_l (tm_ctags_get_lang_kinds l) = .ok ()) ∧
            map.length = (tm_ctags_get_lang_kinds lang).length ∧
            ∃ i : Nat, (tm_ctags_get_lang_kinds lang)[i]? = some c ∧
              (∀ k, k < i → ∃ e ∈ map, e.kind = kinds_at (tm_ctags_get_lang_kinds lang) k) ∧
              (∀ k, k ≤ i → entry_kind map k ∈ tm_ctags_get_lang_kinds lang))) ∧
        ((err.lang_named = some lang ∧ err.kind_named = some c) →
          err = .ctags_not_in_tm c lang) := by
  obtain ⟨h0, h1⟩ := parser_map_at_range hmap
  obtain ⟨n, rfl⟩ := Int.eq_ofNat_of_zero_le h0
  have hn : n < 55 := by
    have : (n : Int) < 55 := h1
    omega
  have hgetD : (parser_map_at (n : Int)).getD [] = map := by rw [hmap]; rfl
  -- the check of the language itself fails
  have hfail : ∃ err, verify_lang char_is_signed (n : Int) map
      (tm_ctags_get_lang_kinds (n : Int)) = .error err := by
    cases hres : verify_lang char_is_signed (n : Int) map (tm_ctags_get_lang_kinds (n : Int)) with
    | error e => exact ⟨e, rfl⟩
    | ok u =>
      exfalso
      obtain ⟨_, _, _, hgap⟩ := verify_lang_ok_sound char_is_signed (n : Int) map _ hres
      obtain ⟨e, he, hk⟩ := hgap c hdecl
      exact homit e he hk
  -- so the verifier fails
  have hverr : ∃ err, tm_parser_verify_type_mappings char_is_signed tm_ctags_get_lang_count
      tm_ctags_get_lang_kinds = .error err := by
    unfold tm_parser_verify_type_mappings
    split
    · exact ⟨_, rfl⟩
    · apply verify_langs_error char_is_signed tm_ctags_get_lang_kinds _ 0 n
      · show n < 55
        exact hn
      · rw [zero_add, hgetD]
        exact hfail
  -- under the conditions, the error is the gap error at the omitted code
  have hmpr : (TM_PARSER_COUNT ≤ (tm_ctags_get_lang_count : Int) ∧
      (∀ l map_l, l < (n : Int) → parser_map_at l = some map_l →
        verify_lang char_is_signed l map_l (tm_ctags_get_lang_kinds l) = .ok ()) ∧
      map.length = (tm_ctags_get_lang_kinds (n : Int)).length ∧
      ∃ i : Nat, (tm_ctags_get_lang_kinds (n : Int))[i]? = some c ∧
        (∀ k, k < i → ∃ e ∈ map, e.kind = kinds_at (tm_ctags_get_lang_kinds (n : Int)) k) ∧
        (∀ k, k ≤ i → entry_kind map k ∈ tm_ctags_get_lang_kinds (n : Int))) →
      tm_parser_verify_type_mappings char_is_signed tm_ctags_get_lang_count
        tm_ctags_get_lang_kinds = .error (.ctags_not_in_tm c (n : Int)) := by
    rintro ⟨hcount, hearlier, hlen, i, hi, hpresent, hdeclared⟩
    have hilt : i < (tm_ctags_get_lang_kinds (n : Int)).length := by
      by_contra hge
      rw [List.getElem?_eq_none (not_lt.mp hge)] at hi
      cases hi
    have hat : kinds_at (tm_ctags_get_lang_kinds (n : Int)) i = c := by
      unfold kinds_at
      rw [List.getD_eq_getElem _ _ hilt]
      rw [List.getElem?_eq_getElem hilt] at hi
      exact Option.some.inj hi
    have hpos : 1 ≤ map.length := by omega
    have hentries : verify_entries char_is_signed (n : Int) map
        (tm_ctags_get_lang_kinds (n : Int)) map.length 0 (List.replicate 256 0) =
        .error (.ctags_not_in_tm c (n : Int)) := by
      rw [← hat]
      apply verify_entries_first_gap char_is_signed (n : Int) map _ map.length 0 i
      · exact Nat.zero_le i
      · omega
      · intro k _ hk
        exact ⟨(ctags_found_iff map _ k hlen).mpr (hdeclared k (le_of_lt hk)),
          (tm_found_iff map _ k).mpr (hpresent k hk)⟩
      · exact (ctags_found_iff map _ i hlen).mpr (hdeclared i (le_refl i))
      · rw [← Bool.not_eq_true, tm_found_iff, hat]
        rintro ⟨e, he, hk⟩
        exact homit e he hk
    have hlang : verify_lang char_is_signed (n : Int) map (tm_ctags_get_lang_kinds (n : Int)) =
        .error (.ctags_not_in_tm c (n : Int)) := by
      unfold verify_lang
      rw [if_neg (by omega), if_neg (not_not.mpr hlen), hentries]
    unfold tm_parser_verify_type_mappings
    rw [if_neg (not_lt.mpr hcount)]
    apply verify_langs_first_error char_is_signed tm_ctags_get_lang_kinds _ 0 n
    · show n < 55
      exact hn
    · intro k2 hk2
      rw [zero_add]
      have hk0 : (0 : Int) ≤ (k2 : Int) := Int.ofNat_nonneg k2
      have hk55 : (k2 : Int) < TM_PARSER_COUNT := by
        show (k2 : Int) < 55
        omega
      have hklt : (k2 : Int) < (n : Int) := by
        omega
      obtain ⟨map2, hmap2, _⟩ := parser_map_at_some hk0 hk55
      rw [hmap2]
      exact hearlier (k2 : Int) map2 hklt hmap2
    · rw [zero_add, hgetD]
      exact hlang
  obtain ⟨err, herr⟩ := hverr
  -- an error naming the language and the code implies the conditions
  have hmp : (err.lang_named = some (n : Int) ∧ err.kind_named = some c) →
      (TM_PARSER_COUNT ≤ (tm_ctags_get_lang_count : Int) ∧
      (∀ l map_l, l < (n : Int) → parser_map_at l = some map_l →
        verify_lang char_is_signed l map_l (tm_ctags_get_lang_kinds l) = .ok ()) ∧
      map.length = (tm_ctags_get_lang_kinds (n : Int)).length ∧
      ∃ i : Nat, (tm_ctags_get_lang_kinds (n : Int))[i]? = some c ∧
        (∀ k, k < i → ∃ e ∈ map, e.kind = kinds_at (tm_ctags_get_lang_kinds (n : Int)) k) ∧
        (∀ k, k ≤ i → entry_kind map k ∈ tm_ctags_get_lang_kinds (n : Int))) := by
    rintro ⟨hlnamed, hknamed⟩
    by_cases hcount : TM_PARSER_COUNT > (tm_ctags_get_lang_count : Int)
    · exfalso
      unfold tm_parser_verify_type_mappings at herr
      rw [if_pos hcount] at herr
      cases herr
      cases hlnamed
    · have hrun := herr
      unfold tm_parser_verify_type_mappings at hrun
      rw [if_neg hcount] at hrun
      obtain ⟨k, hk55, hbefore, herrk⟩ :=
        verify_langs_error_inv char_is_signed tm_ctags_get_lang_kinds _ 0 err hrun
      rw [zero_add] at herrk
      have hnamedk := verify_lang_error_lang _ _ _ _ _ herrk
      rw [hlnamed] at hnamedk
      have hkn : (n : Int) = (k : Int) := Option.some.inj hnamedk
      have hkn2 : k = n := by omega
      subst hkn2
      rw [hgetD] at herrk
      have hearlier : ∀ l map_l, l < (k : Int) → parser_map_at l = some map_l →
          verify_lang char_is_signed l map_l (tm_ctags_get_lang_kinds l) = .ok () := by
        intro l map_l hl hl2
        obtain ⟨k2, rfl⟩ := Int.eq_ofNat_of_zero_le (parser_map_at_range hl2).1
        have hk2 : k2 < k := by omega
        have hpass := hbefore k2 hk2
        rw [zero_add, hl2] at hpass
        exact hpass
      -- the error of the check of the language
      have hsize1 : ¬ map.length < 1 := by
        intro h1
        unfold verify_lang at herrk
        rw [if_pos h1] at herrk
        cases herrk
        cases hknamed
      have hlen : map.length = (tm_ctags_get_lang_kinds (k : Int)).length := by
        by_contra h2
        unfold verify_lang at herrk
        rw [if_neg hsize1, if_pos h2] at herrk
        cases herrk
        cases hknamed
      refine ⟨not_lt.mp hcount, hearlier, hlen, ?_⟩
      unfold verify_lang at herrk
      rw [if_neg hsize1, if_neg (not_not.mpr hlen)] at herrk
      cases hent : verify_entries char_is_signed (k : Int) map
          (tm_ctags_get_lang_kinds (k : Int)) map.length 0 (List.replicate 256 0) with
      | ok pm =>
        exfalso
        obtain ⟨j, hj, hat⟩ := kinds_at_of_mem hdecl
        have hfound := verify_entries_ok_found char_is_signed (k : Int) map _ _ _ _ _ hent j
          (Nat.zero_le j) (by omega)
        obtain ⟨e, he, hek⟩ := (tm_found_iff map _ j).mp hfound.2
        rw [hat] at hek
        exact homit e he hek
      | error e =>
        rw [hent] at herrk
        have hee : e = err := by
          cases herrk
          rfl
        subst hee
        obtain ⟨m, _, hm2, hbefore2, hcase⟩ :=
          verify_entries_error_inv char_is_signed (k : Int) map _ _ _ _ _ hent
        have hmlt : m < map.length := by omega
        rcases hcase with ⟨_, he⟩ | ⟨hc1, _, he⟩
        · exfalso
          rw [he] at hknamed
          have hkind : entry_kind map m = c := Option.some.inj hknamed
          obtain ⟨e2, he2, hk2⟩ := entry_kind_mem hmlt
          exact homit e2 he2 (hk2.trans hkind)
        · rw [he] at hknamed
          have hkind : kinds_at (tm_ctags_get_lang_kinds (k : Int)) m = c :=
            Option.some.inj hknamed
          have hmk : m < (tm_ctags_get_lang_kinds (k : Int)).length := by omega
          refine ⟨m, ?_, ?_, ?_⟩
          · rw [List.getElem?_eq_getElem hmk, ← hkind]
            unfold kinds_at
            rw [List.getD_eq_getElem _ _ hmk]
          · intro j hj
            exact (tm_found_iff map _ j).mp (hbefore2 j (Nat.zero_le j) hj).2
          · intro j hj
            by_cases hjm : j = m
            · rw [hjm]
              exact (ctags_found_iff map _ m hlen).mp hc1
            · exact (ctags_found_iff map _ j hlen).mp
                (hbefore2 j (Nat.zero_le j) (by omega)).1
  refine ⟨?_, err, herr, ⟨hmp, ?_⟩, ?_⟩
  · obtain ⟨e, he⟩ := hfail
    exact ⟨e, he, verify_lang_error_lang _ _ _ _ _ he⟩
  · intro hcond
    have hexact := hmpr hcond
    rw [herr] at hexact
    have hee : err = .ctags_not_in_tm c (n : Int) := by
      cases hexact
      rfl
    rw [hee]
    exact ⟨rfl, rfl⟩
  · intro hnamed
    have hexact := hmpr (hmp hnamed)
    rw [herr] at hexact
    cases hexact
    rfl

/-- The map of C passes the check against its own kinds. -/
theorem verify_lang_C_ok :
    verify_lang true TM_PARSER_C map_C (verify_witness_kinds TM_PARSER_C) = .ok () :=
  verify_lang_complete true TM_PARSER_C map_C (verify_witness_kinds TM_PARSER_C)
    (by decide) (by decide) (by decide) (by decide) (by decide) (by decide)

/-- Witness of C4: C passes, and for C++ the extractor declares `q` at index
2, where the map has `f`, which the kind string has at its end; the verifier
aborts naming C++ and `q`. -/
theorem verify_omitted_kind_fails_witness :
    parser_map_at TM_PARSER_CPP = some map_CPP ∧
      'q' ∈ verify_witness_kinds TM_PARSER_CPP ∧
      (∀ e ∈ map_CPP, e.kind ≠ 'q') ∧
      tm_parser_verify_type_mappings true 55 verify_witness_kinds =
        .error (.ctags_not_in_tm 'q' TM_PARSER_CPP) := by
  have hmap : parser_map_at TM_PARSER_CPP = some map_CPP := by decide
  have hdecl : 'q' ∈ verify_witness_kinds TM_PARSER_CPP := by decide
  have homit : ∀ e ∈ map_CPP, e.kind ≠ 'q' := by decide
  refine ⟨hmap, hdecl, homit, ?_⟩
  obtain ⟨err, herr, hiff, hexact⟩ :=
    (verify_omitted_kind_fails true 55 verify_witness_kinds TM_PARSER_CPP map_CPP 'q'
      hmap hdecl homit).2
  have hearlier : ∀ l map_l, l < TM_PARSER_CPP → parser_map_at l = some map_l →
      verify_lang true l map_l (verify_witness_kinds l) = .ok () := by
    intro l map_l hl hl2
    have hl0 : 0 ≤ l := (parser_map_at_range hl2).1
    have hl1 : l < 1 := hl
    have hlz : l = 0 := le_antisymm (Int.lt_add_one_iff.mp hl1) hl0
    subst hlz
    have hc : parser_map_at 0 = some map_C := by decide
    rw [hc] at hl2
    cases hl2
    exact verify_lang_C_ok
  have hnamed := hiff.mpr ⟨by decide, hearlier, by decide, 2, by decide, by decide, by decide⟩
  rw [hexact hnamed] at herr
  exact herr

/-- Counterexample to C4 as stated: C omits the declared code `q`, and the
verifier aborts with an error that names no kind code (the sizes differ);
with equal sizes it names the undeclared code `D` of the map instead; and
when the shell map omits `x` while C fails first, it names C. -/
theorem verify_omitted_kind_not_named :
    (parser_map_at TM_PARSER_C = some map_C ∧
        'q' ∈ verify_longer_kinds TM_PARSER_C ∧ (∀ e ∈ map_C, e.kind ≠ 'q') ∧
        tm_parser_verify_type_mappings true 55 verify_longer_kinds =
          .error (.different_number 16 17 TM_PARSER_C) ∧
        (VerifyError.different_number 16 17 TM_PARSER_C).kind_named ≠ some 'q') ∧
      (parser_map_at TM_PARSER_C = some map_C ∧
        'q' ∈ verify_orphan_kinds TM_PARSER_C ∧ (∀ e ∈ map_C, e.kind ≠ 'q') ∧
        tm_parser_verify_type_mappings true 55 verify_orphan_kinds =
          .error (.tm_not_in_ctags 'D' TM_PARSER_C) ∧
        (VerifyError.tm_not_in_ctags 'D' TM_PARSER_C).kind_named ≠ some 'q') ∧
      (parser_map_at TM_PARSER_SH = some map_SH ∧
        'x' ∈ verify_longer_kinds TM_PARSER_SH ∧ (∀ e ∈ map_SH, e.kind ≠ 'x') ∧
        tm_parser_verify_type_mappings true 55 verify_longer_kinds =
          .error (.different_number 16 17 TM_PARSER_C) ∧
        (VerifyError.different_number 16 17 TM_PARSER_C).lang_named ≠ some TM_PARSER_SH) := by
  decide

/-- C6. The function `tm_parser_get_subparser_type` returns
`tm_tag_function_t` for JavaScript functions embedded in HTML and
`tm_tag_undef_t` for every other host, embedded language or type, whether
the table is still unallocated or already built; a class of JavaScript
embedded in HTML gives `tm_tag_undef_t`. -/
theorem tm_parser_get_subparser_type_spec (lang sublang : TMParserType) (type : TMTagType) :
    (tm_parser_get_subparser_type none lang sublang type).1 =
        (if lang = TM_PARSER_HTML ∧ sublang = TM_PARSER_JAVASCRIPT ∧ type = tm_tag_function_t
          then tm_tag_function_t else tm_tag_undef_t) ∧
      (tm_parser_get_subparser_type (some (init_subparser_map [])) lang sublang type).1 =
        (if lang = TM_PARSER_HTML ∧ sublang = TM_PARSER_JAVASCRIPT ∧ type = tm_tag_function_t
          then tm_tag_function_t else tm_tag_undef_t) ∧
      (tm_parser_get_subparser_type none TM_PARSER_HTML TM_PARSER_JAVASCRIPT
        tm_tag_class_t).1 = tm_tag_undef_t := by
  have key : get_subparser_type_lookup (init_subparser_map []) lang sublang type =
        (if lang = TM_PARSER_HTML ∧ sublang = TM_PARSER_JAVASCRIPT ∧ type = tm_tag_function_t
          then tm_tag_function_t else tm_tag_undef_t) := by
    have htable : init_subparser_map [] =
        [(TM_PARSER_HTML, [(TM_PARSER_JAVASCRIPT, subparser_HTML_javascript_map)])] := rfl
    rw [htable]
    unfold get_subparser_type_lookup
    by_cases hl : lang = TM_PARSER_HTML
    · by_cases hs : sublang = TM_PARSER_JAVASCRIPT
      · by_cases ht : type = tm_tag_function_t
        · subst hl hs ht
          rfl
        · subst hl hs
          have ht2 : ¬ tm_tag_function_t = type := fun h => ht h.symm
          simp [g_hash_table_lookup, get_subparser_type_scan, subparser_HTML_javascript_map,
            ht, ht2]
      · subst hl
        have hs2 : ¬ TM_PARSER_JAVASCRIPT = sublang := fun h => hs h.symm
        simp [g_hash_table_lookup, hs, hs2]
    · have hl2 : ¬ TM_PARSER_HTML = lang := fun h => hl h.symm
      simp [g_hash_table_lookup, hl, hl2]
  exact ⟨key, key, by decide⟩

/-- C7. For a language of the registry and a tag type, the function
`tm_parser_get_tag_kind` returns the kind of the first entry of the map of
the language whose type is the given one, and it returns the NUL character
exactly when no entry has the type: no entry of the map has a NUL kind. -/
theorem tm_parser_get_tag_kind_first_match (lang : TMParserType) (type : TMTagType)
    (h0 : 0 ≤ lang) (h1 : lang < TM_PARSER_COUNT) :
    ∃ map, parser_map_at lang = some map ∧ (lang, map) ∈ parser_map ∧
      (∀ pre e post, map = pre ++ e :: post → e.type = type → (∀ x ∈ pre, x.type ≠ type) →
        tm_parser_get_tag_kind type lang = some e.kind) ∧
      (tm_parser_get_tag_kind type lang = some '\x00' ↔ ∀ e ∈ map, e.type ≠ type) ∧
      (∀ e ∈ map, e.kind ≠ '\x00') := by
  obtain ⟨map, hmap, hmem⟩ := parser_map_at_some h0 h1
  have hnul : ∀ e ∈ map, e.kind ≠ '\x00' := parser_map_kinds_not_nul (lang, map) hmem
  refine ⟨map, hmap, hmem, ?_, ?_, hnul⟩
  · intro pre e post hsplit htype hpre
    rw [tm_parser_get_tag_kind_eq hmap, hsplit,
      get_tag_kind_scan_first type pre e post htype hpre]
  · rw [tm_parser_get_tag_kind_eq hmap]
    constructor
    · intro hres e he htype
      obtain ⟨e2, he2, _, hscan⟩ := get_tag_kind_scan_mem type map ⟨e, he, htype⟩
      have hres2 : get_tag_kind_scan type map = '\x00' := Option.some.inj hres
      rw [hscan] at hres2
      exact hnul e2 he2 hres2
    · intro habs
      rw [get_tag_kind_scan_absent type map habs]

/-- Witness of C7 at Pascal and the function type, whose first entry has
kind `f`. -/
theorem tm_parser_get_tag_kind_first_match_witness :
    0 ≤ TM_PARSER_PASCAL ∧ TM_PARSER_PASCAL < TM_PARSER_COUNT ∧
      tm_parser_get_tag_kind tm_tag_function_t TM_PARSER_PASCAL = some 'f' := by
  refine ⟨by decide, by decide, ?_⟩
  obtain ⟨map, hmap, _, hfirst, _⟩ :=
    tm_parser_get_tag_kind_first_match TM_PARSER_PASCAL tm_tag_function_t
      (by decide) (by decide)
  have hp : parser_map_at TM_PARSER_PASCAL = some map_PASCAL := by decide
  rw [hp] at hmap
  cases hmap
  exact hfirst [] ⟨'f', tm_tag_function_t⟩ [⟨'p', tm_tag_function_t⟩] rfl rfl (by simp)

/-- C8. For a language of the registry and a kind code, the function
`tm_parser_enable_kind` is true if and only if the code is the kind of an
entry of the map of the language whose type is not `tm_tag_undef_t`, that is
if and only if `tm_parser_get_tag_type` does not return `tm_tag_undef_t`;
for a language index of `TM_PARSER_COUNT` or more it is false. -/
theorem tm_parser_enable_kind_iff (lang : TMParserType) (kind : gchar) (h0 : 0 ≤ lang) :
    (lang < TM_PARSER_COUNT →
      ∃ map type, parser_map_at lang = some map ∧
        tm_parser_get_tag_type kind lang = some type ∧
        tm_parser_enable_kind lang kind = some (decide (type ≠ tm_tag_undef_t)) ∧
        (tm_parser_enable_kind lang kind = some true ↔
          ∃ e ∈ map, e.kind = kind ∧ e.type ≠ tm_tag_undef_t)) ∧
      (TM_PARSER_COUNT ≤ lang → tm_parser_enable_kind lang kind = some false) := by
  constructor
  · intro h1
    obtain ⟨map, hmap, hmem⟩ := parser_map_at_some h0 h1
    have hnodup := parser_map_kinds_nodup (lang, map) hmem
    refine ⟨map, get_tag_type_scan kind map, hmap, tm_parser_get_tag_type_eq hmap kind, ?_, ?_⟩
    · rw [tm_parser_enable_kind_eq hmap, enable_kind_scan_eq]
    · rw [tm_parser_enable_kind_eq hmap, enable_kind_scan_eq]
      constructor
      · intro htrue
        have hne : get_tag_type_scan kind map ≠ tm_tag_undef_t := by
          have := Option.some.inj htrue
          simpa using this
        by_cases hex : ∃ e ∈ map, e.kind = kind
        · obtain ⟨e, he, hk⟩ := hex
          refine ⟨e, he, hk, ?_⟩
          rw [← get_tag_type_scan_of_mem kind map hnodup e he hk]
          exact hne
        · exfalso
          apply hne
          apply get_tag_type_scan_absent
          intro e he hk
          exact hex ⟨e, he, hk⟩
      · rintro ⟨e, he, hk, ht⟩
        rw [get_tag_type_scan_of_mem kind map hnodup e he hk]
        simp [ht]
  · intro hge
    unfold tm_parser_enable_kind
    rw [if_pos hge]

/-- Witness of C8: kind `f` of Python is enabled, and the index
`TM_PARSER_COUNT` gives false. -/
theorem tm_parser_enable_kind_iff_witness :
    0 ≤ TM_PARSER_PYTHON ∧ TM_PARSER_PYTHON < TM_PARSER_COUNT ∧
      tm_parser_enable_kind TM_PARSER_PYTHON 'f' = some true ∧
      tm_parser_enable_kind TM_PARSER_COUNT 'f' = some false := by
  refine ⟨by decide, by decide, ?_, ?_⟩
  · obtain ⟨map, type, hmap, _, _, hiff⟩ :=
      (tm_parser_enable_kind_iff TM_PARSER_PYTHON 'f' (by decide)).1 (by decide)
    have hpy : parser_map_at TM_PARSER_PYTHON = some map_PYTHON := by decide
    rw [hpy] at hmap
    cases hmap
    exact hiff.2 ⟨⟨'f', tm_tag_function_t⟩, by decide, rfl, by decide⟩
  · exact (tm_parser_enable_kind_iff TM_PARSER_COUNT 'f' (by decide)).2 (le_refl _)

/-- C9. The function `tm_parser_langs_compatible` is true if and only if
neither language is `TM_PARSER_NONE` and the two are equal or are C and C++
in either order; it is false for `TM_PARSER_NONE` with itself. -/
theorem tm_parser_langs_compatible_iff (a b : TMParserType) :
    (tm_parser_langs_compatible a b = true ↔
        a ≠ TM_PARSER_NONE ∧ b ≠ TM_PARSER_NONE ∧
          (a = b ∨ ({a, b} : Set TMParserType) = {TM_PARSER_C, TM_PARSER_CPP})) ∧
      tm_parser_langs_compatible TM_PARSER_NONE TM_PARSER_NONE = false := by
  refine ⟨?_, by decide⟩
  rw [Set.pair_eq_pair_iff]
  exact langs_compatible_true_iff a b

/-- C10. The function `tm_parser_langs_compatible` is symmetric in its two
languages, `TM_PARSER_NONE` included. -/
theorem tm_parser_langs_compatible_symm (a b : TMParserType) :
    tm_parser_langs_compatible a b = tm_parser_langs_compatible b a := by
  rw [Bool.eq_iff_iff, langs_compatible_true_iff a b, langs_compatible_true_iff b a]
  constructor
  · rintro ⟨ha, hb, h⟩
    refine ⟨hb, ha, ?_⟩
    rcases h with h | h | h
    · exact Or.inl h.symm
    · exact Or.inr (Or.inr ⟨h.2, h.1⟩)
    · exact Or.inr (Or.inl ⟨h.2, h.1⟩)
  · rintro ⟨hb, ha, h⟩
    refine ⟨ha, hb, ?_⟩
    rcases h with h | h | h
    · exact Or.inl h.symm
    · exact Or.inr (Or.inr ⟨h.2, h.1⟩)
    · exact Or.inr (Or.inl ⟨h.2, h.1⟩)

/-- C11. The function `tm_parser_format_function` returns `NULL` if and only
if `args` is absent; with `args` present it returns a string, whatever the
return type and the scope are. -/
theorem tm_parser_format_function_none_iff (lang : TMParserType) (fname : List gchar)
    (args retval scope : Option (List gchar)) :
    (tm_parser_format_function lang fname args retval scope = none ↔ args = none) ∧
      ∀ present : List gchar, ∃ str,
        tm_parser_format_function lang fname (some present) retval scope = some str := by
  constructor
  · cases args with
    | none => exact ⟨fun _ => rfl, fun _ => rfl⟩
    | some a =>
      constructor
      · intro h
        simp [tm_parser_format_function] at h
      · intro h
        cases h
  · intro present
    exact ⟨_, rfl⟩

/-- C12. With `args` and the return type `r` present, the result of
`tm_parser_format_function` is the result `base` for an absent return type
followed by an arrow and `r` for Python and GDScript, by a colon and `r` for
Pascal, by a space and `r` for Go, and it is `r`, a space and `base` for every
other language; a Python function `run` with arguments `()` and return type
`None` gives `run () -> None`. -/
theorem tm_parser_format_function_retval (lang : TMParserType) (fname args r : List gchar)
    (scope : Option (List gchar)) :
    (∃ base, tm_parser_format_function lang fname (some args) none scope = some base ∧
        tm_parser_format_function lang fname (some args) (some r) scope =
          some (if lang = TM_PARSER_PYTHON ∨ lang = TM_PARSER_GDSCRIPT then
              base ++ " -> ".toList ++ r
            else if lang = TM_PARSER_PASCAL then base ++ ": ".toList ++ r
            else if lang = TM_PARSER_GO then base ++ " ".toList ++ r
            else r ++ " ".toList ++ base)) ∧
      tm_parser_format_function TM_PARSER_PYTHON "run".toList (some "()".toList)
        (some "None".toList) none = some "run () -> None".toList := by
  refine ⟨⟨_, rfl, ?_⟩, by decide⟩
  have harrow : " -> ".toList = [' ', '-', '>', ' '] := rfl
  have hcolon : ": ".toList = [':', ' '] := rfl
  have hspace : " ".toList = [' '] := rfl
  rw [harrow, hcolon, hspace]
  unfold tm_parser_format_function format_function_sep
  by_cases hpy : lang = TM_PARSER_PYTHON
  · subst hpy
    simp
  · by_cases hgd : lang = TM_PARSER_GDSCRIPT
    · subst hgd
      simp
    · by_cases hpa : lang = TM_PARSER_PASCAL
      · subst hpa
        simp
      · by_cases hgo : lang = TM_PARSER_GO
        · subst hgo
          simp
        · simp [hpy, hgd, hpa, hgo]

/-- Counterexample to C13 as stated: for the Conf parser the scope `a` is
joined to the name by the printable separator, not by the scope separator
(the control character of code 3). -/
theorem tm_parser_format_function_scope_not_separator :
    tm_parser_format_function TM_PARSER_CONF "f".toList (some "()".toList) none
        (some "a".toList) = some "a > f ()".toList ∧
      tm_parser_format_function TM_PARSER_CONF "f".toList (some "()".toList) none
        (some "a".toList) ≠
        some ("a".toList ++ tm_parser_scope_separator TM_PARSER_CONF ++ "f".toList ++
          " ".toList ++ "()".toList) := by
  decide

/-- C13, as the code has it. With `args` and the scope present and the return
type absent, the result of `tm_parser_format_function` is the scope, the
printable scope separator of the language, the name, a space and the
arguments; the printable separator is the scope separator of the language
except for Txt2tags, AsciiDoc, Conf and reStructuredText, where it is ` > `;
with the scope absent the result is the name, a space and the arguments. -/
theorem tm_parser_format_function_scope (lang : TMParserType) (fname args scope : List gchar) :
    tm_parser_format_function lang fname (some args) none (some scope) =
        some (scope ++ tm_parser_scope_separator_printable lang ++ fname ++ " ".toList ++
          args) ∧
      tm_parser_scope_separator_printable lang =
        (if lang = TM_PARSER_TXT2TAGS ∨ lang = TM_PARSER_ASCIIDOC ∨ lang = TM_PARSER_CONF ∨
            lang = TM_PARSER_REST then " > ".toList
          else tm_parser_scope_separator lang) ∧
      tm_parser_format_function lang fname (some args) none none =
        some (fname ++ " ".toList ++ args) := by
  refine ⟨?_, rfl, ?_⟩
  · have hspace : " ".toList = [' '] := rfl
    rw [hspace]
    unfold tm_parser_format_function
    simp
  · have hspace : " ".toList = [' '] := rfl
    rw [hspace]
    unfold tm_parser_format_function
    simp

/-- C14. The function `tm_parser_format_variable` returns `NULL` if and only
if the type is absent; with the type present the result is the name, a space
and the type for Go, the name, a colon, a space and the type for Pascal and
Python, and the type, a space and the name for every other language; `count`
of type `int` gives `count int` in Go and `int count` in C. -/
theorem tm_parser_format_variable_spec (lang : TMParserType) (name : List gchar)
    (type : Option (List gchar)) :
    (tm_parser_format_variable lang name type = none ↔ type = none) ∧
      (∀ t : List gchar, tm_parser_format_variable lang name (some t) =
        some (if lang = TM_PARSER_GO then name ++ " ".toList ++ t
          else if lang = TM_PARSER_PASCAL ∨ lang = TM_PARSER_PYTHON then
            name ++ ": ".toList ++ t
          else t ++ " ".toList ++ name)) ∧
      tm_parser_format_variable TM_PARSER_GO "count".toList (some "int".toList) =
        some "count int".toList ∧
      tm_parser_format_variable TM_PARSER_C "count".toList (some "int".toList) =
        some "int count".toList := by
  have hall : ∀ t : List gchar, tm_parser_format_variable lang name (some t) =
        some (if lang = TM_PARSER_GO then name ++ " ".toList ++ t
          else if lang = TM_PARSER_PASCAL ∨ lang = TM_PARSER_PYTHON then
            name ++ ": ".toList ++ t
          else t ++ " ".toList ++ name) := by
    intro t
    have hcolon : ": ".toList = [':', ' '] := rfl
    have hspace : " ".toList = [' '] := rfl
    rw [hcolon, hspace]
    unfold tm_parser_format_variable
    by_cases hgo : lang = TM_PARSER_GO
    · simp [hgo]
    · by_cases hpp : lang = TM_PARSER_PASCAL ∨ lang = TM_PARSER_PYTHON
      · simp [hgo, hpp]
      · simp [hgo, hpp]
  refine ⟨?_, hall, by decide, by decide⟩
  cases type with
  | none => exact ⟨fun _ => rfl, fun _ => rfl⟩
  | some t =>
    constructor
    · intro h
      rw [hall t] at h
      cases h
    · intro h
      cases h

/-- C15. For every string `p`, the text `p` followed by `->*` has suffix
length 3 in C++ and 0 in C, and the text `p` followed by `->` has suffix
length 2 in both C and C++. -/
theorem tm_parser_scope_autocomplete_suffix_arrow (p : List gchar) :
    tm_parser_scope_autocomplete_suffix TM_PARSER_CPP (p ++ "->*".toList) = 3 ∧
      tm_parser_scope_autocomplete_suffix TM_PARSER_C (p ++ "->*".toList) = 0 ∧
      tm_parser_scope_autocomplete_suffix TM_PARSER_C (p ++ "->".toList) = 2 ∧
      tm_parser_scope_autocomplete_suffix TM_PARSER_CPP (p ++ "->".toList) = 2 := by
  have hstar : "->*".toList = ['-', '>', '*'] := rfl
  have harrow : "->".toList = ['-', '>'] := rfl
  have hcpp : tm_parser_scope_separator TM_PARSER_CPP = [':', ':'] := by decide
  have hc : tm_parser_scope_separator TM_PARSER_C = [':', ':'] := by decide
  rw [hstar, harrow]
  unfold tm_parser_scope_autocomplete_suffix
  simp only [hcpp, hc]
  rw [g_str_has_suffix_append p ['-', '>', '*'] [':', ':'] (by decide),
    g_str_has_suffix_append p ['-', '>', '*'] ['.'] (by decide),
    g_str_has_suffix_append p ['-', '>', '*'] ['-', '>'] (by decide),
    g_str_has_suffix_append p ['-', '>', '*'] ['-', '>', '*'] (by decide),
    g_str_has_suffix_append p ['-', '>'] [':', ':'] (by decide),
    g_str_has_suffix_append p ['-', '>'] ['.'] (by decide),
    g_str_has_suffix_append p ['-', '>'] ['-', '>'] (by decide)]
  have e1 : g_str_has_suffix ['-', '>', '*'] [':', ':'] = false := by decide
  have e2 : g_str_has_suffix ['-', '>', '*'] ['.'] = false := by decide
  have e3 : g_str_has_suffix ['-', '>', '*'] ['-', '>'] = false := by decide
  have e4 : g_str_has_suffix ['-', '>', '*'] ['-', '>', '*'] = true := by decide
  have e5 : g_str_has_suffix ['-', '>'] [':', ':'] = false := by decide
  have e6 : g_str_has_suffix ['-', '>'] ['.'] = false := by decide
  have e7 : g_str_has_suffix ['-', '>'] ['-', '>'] = true := by decide
  simp [e1, e2, e3, e4, e5, e6, e7]

/-- C16. The result of `tm_parser_scope_autocomplete_suffix` is 0 or the
length of a scope-entry operator of the language that is a suffix of the
text, so it is at most the length of the text; and it is 0 if and only if no
scope-entry operator of the language is a suffix of the text. -/
theorem tm_parser_scope_autocomplete_suffix_spec (lang : TMParserType) (str : List gchar) :
    (tm_parser_scope_autocomplete_suffix lang str = 0 ∨
        ∃ op ∈ scope_operators lang, op <:+ str ∧
          tm_parser_scope_autocomplete_suffix lang str = (op.length : Int)) ∧
      0 ≤ tm_parser_scope_autocomplete_suffix lang str ∧
      tm_parser_scope_autocomplete_suffix lang str ≤ (str.length : Int) ∧
      (tm_parser_scope_autocomplete_suffix lang str = 0 ↔
        ∀ op ∈ scope_operators lang, ¬ op <:+ str) := by
  have hfound : ∀ op ∈ scope_operators lang, op <:+ str →
      tm_parser_scope_autocomplete_suffix lang str = (op.length : Int) → 0 < op.length →
      (tm_parser_scope_autocomplete_suffix lang str = 0 ∨
        ∃ op ∈ scope_operators lang, op <:+ str ∧
          tm_parser_scope_autocomplete_suffix lang str = (op.length : Int)) ∧
      0 ≤ tm_parser_scope_autocomplete_suffix lang str ∧
      tm_parser_scope_autocomplete_suffix lang str ≤ (str.length : Int) ∧
      (tm_parser_scope_autocomplete_suffix lang str = 0 ↔
        ∀ op ∈ scope_operators lang, ¬ op <:+ str) := by
    intro op hop hsuf hval hpos
    have hle := hsuf.length_le
    refine ⟨Or.inr ⟨op, hop, hsuf, hval⟩, ?_, ?_, ?_⟩
    · rw [hval]
      exact Int.ofNat_nonneg _
    · rw [hval]
      exact Int.ofNat_le.mpr hle
    · constructor
      · intro h0
        rw [hval] at h0
        have : op.length = 0 := Int.ofNat_eq_zero.mp h0
        omega
      · intro hnone
        exact absurd hsuf (hnone op hop)
  have hnone : tm_parser_scope_autocomplete_suffix lang str = 0 →
      (∀ op ∈ scope_operators lang, ¬ op <:+ str) →
      (tm_parser_scope_autocomplete_suffix lang str = 0 ∨
        ∃ op ∈ scope_operators lang, op <:+ str ∧
          tm_parser_scope_autocomplete_suffix lang str = (op.length : Int)) ∧
      0 ≤ tm_parser_scope_autocomplete_suffix lang str ∧
      tm_parser_scope_autocomplete_suffix lang str ≤ (str.length : Int) ∧
      (tm_parser_scope_autocomplete_suffix lang str = 0 ↔
        ∀ op ∈ scope_operators lang, ¬ op <:+ str) := by
    intro hval hall
    refine ⟨Or.inl hval, ?_, ?_, ?_⟩
    · rw [hval]
    · rw [hval]
      exact Int.ofNat_nonneg _
    · exact ⟨fun _ => hall, fun _ => hval⟩
  have heq := tm_parser_scope_autocomplete_suffix_eq lang str
  by_cases hsep : tm_parser_scope_separator lang <:+ str
  · rw [if_pos hsep] at heq
    exact hfound _ ((mem_scope_operators lang _).mpr (Or.inl rfl)) hsep heq
      (tm_parser_scope_separator_length_pos lang)
  · rw [if_neg hsep] at heq
    by_cases hc : lang = TM_PARSER_C ∨ lang = TM_PARSER_CPP
    · rw [if_pos hc] at heq
      by_cases hdot : ['.'] <:+ str
      · rw [if_pos hdot] at heq
        exact hfound ['.'] ((mem_scope_operators lang _).mpr (Or.inr (Or.inl ⟨hc, Or.inl rfl⟩)))
          hdot heq (by decide)
      · rw [if_neg hdot] at heq
        by_cases harrow : ['-', '>'] <:+ str
        · rw [if_pos harrow] at heq
          exact hfound ['-', '>']
            ((mem_scope_operators lang _).mpr (Or.inr (Or.inl ⟨hc, Or.inr rfl⟩)))
            harrow heq (by decide)
        · rw [if_neg harrow] at heq
          by_cases hstar : lang = TM_PARSER_CPP ∧ ['-', '>', '*'] <:+ str
          · rw [if_pos hstar] at heq
            exact hfound ['-', '>', '*']
              ((mem_scope_operators lang _).mpr (Or.inr (Or.inr ⟨hstar.1, rfl⟩)))
              hstar.2 heq (by decide)
          · rw [if_neg hstar] at heq
            apply hnone heq
            intro op hop hsuf
            rcases (mem_scope_operators lang op).mp hop with h | ⟨_, h | h⟩ | ⟨hp, h⟩
            · exact hsep (h ▸ hsuf)
            · exact hdot (h ▸ hsuf)
            · exact harrow (h ▸ hsuf)
            · exact hstar ⟨hp, h ▸ hsuf⟩
    · rw [if_neg hc] at heq
      apply hnone heq
      intro op hop hsuf
      rcases (mem_scope_operators lang op).mp hop with h | ⟨hc2, _⟩ | ⟨hp, _⟩
      · exact hsep (h ▸ hsuf)
      · exact hc hc2
      · exact hc (Or.inr hp)

/-- C17. The function `tm_parser_update_scope` returns the scope unchanged
for every language but PHP and Zephir; for these two it returns the scope
with every backslash replaced by two colons, which is the scope itself when
it has no backslash. -/
theorem tm_parser_update_scope_spec (lang : TMParserType) (scope : List gchar) :
    tm_parser_update_scope lang scope =
        (if lang = TM_PARSER_PHP ∨ lang = TM_PARSER_ZEPHIR then replace_every_backslash scope
          else scope) ∧
      ('\\' ∉ scope → tm_parser_update_scope lang scope = scope) := by
  have hval : tm_parser_update_scope lang scope =
      (if lang = TM_PARSER_PHP ∨ lang = TM_PARSER_ZEPHIR then replace_every_backslash scope
        else scope) := by
    unfold tm_parser_update_scope
    rw [replace_string_if_present_backslash]
  refine ⟨hval, ?_⟩
  intro habs
  rw [hval, replace_every_backslash_absent scope habs]
  split <;> rfl

/-- Witness of C17: a PHP scope with two backslashes and one with none. -/
theorem tm_parser_update_scope_spec_witness :
    tm_parser_update_scope TM_PARSER_PHP "App\\Model\\User".toList =
        "App::Model::User".toList ∧
      '\\' ∉ "App::Model".toList ∧
      tm_parser_update_scope TM_PARSER_PHP "App::Model".toList = "App::Model".toList := by
  refine ⟨?_, by decide, ?_⟩
  · rw [(tm_parser_update_scope_spec TM_PARSER_PHP "App\\Model\\User".toList).1]
    decide
  · exact (tm_parser_update_scope_spec TM_PARSER_PHP "App::Model".toList).2 (by decide)

/-- C18. The function `tm_parser_enable_role` is true by default: it is false
if and only if the language is Go and the kind is `p`, or the language is
GDScript and the kind is `c`. -/
theorem tm_parser_enable_role_iff (lang : TMParserType) (kind : gchar) :
    (tm_parser_enable_role lang kind = false ↔
        (lang = TM_PARSER_GO ∧ kind = 'p') ∨ (lang = TM_PARSER_GDSCRIPT ∧ kind = 'c')) ∧
      (tm_parser_enable_role lang kind = true ↔
        ¬ ((lang = TM_PARSER_GO ∧ kind = 'p') ∨ (lang = TM_PARSER_GDSCRIPT ∧ kind = 'c'))) := by
  have hfalse : tm_parser_enable_role lang kind = false ↔
      (lang = TM_PARSER_GO ∧ kind = 'p') ∨ (lang = TM_PARSER_GDSCRIPT ∧ kind = 'c') := by
    unfold tm_parser_enable_role
    by_cases hgd : lang = TM_PARSER_GDSCRIPT
    · subst hgd
      by_cases hk : kind = 'c'
      · simp [hk]
      · simp [hk]
    · by_cases hgo : lang = TM_PARSER_GO
      · subst hgo
        by_cases hk : kind = 'p'
        · simp [hk]
        · simp [hk]
      · simp [hgd, hgo]
  refine ⟨hfalse, ?_⟩
  rw [← hfalse]
  cases tm_parser_enable_role lang kind <;> simp

/-- C19. The printable scope separator of a language is its scope separator
unless the language is Txt2tags, AsciiDoc, Conf or reStructuredText, for
which it is ` > `; so it is never empty and has no control character, while
the scope separator of AsciiDoc, Conf and reStructuredText is the control
character of code 3. -/
theorem tm_parser_scope_separator_printable_spec (lang : TMParserType) :
    tm_parser_scope_separator_printable lang =
        (if lang = TM_PARSER_TXT2TAGS ∨ lang = TM_PARSER_ASCIIDOC ∨ lang = TM_PARSER_CONF ∨
            lang = TM_PARSER_REST then " > ".toList
          else tm_parser_scope_separator lang) ∧
      tm_parser_scope_separator_printable lang ≠ [] ∧
      (∀ c ∈ tm_parser_scope_separator_printable lang, is_control c = false) ∧
      tm_parser_scope_separator TM_PARSER_ASCIIDOC = ['\x03'] ∧
      tm_parser_scope_separator TM_PARSER_CONF = ['\x03'] ∧
      tm_parser_scope_separator TM_PARSER_REST = ['\x03'] ∧
      is_control '\x03' = true := by
  refine ⟨rfl, ?_, ?_, by decide, by decide, by decide, by decide⟩
  · exact tm_parser_scope_separator_printable_ok lang |>.1
  · exact tm_parser_scope_separator_printable_ok lang |>.2

/-- C20. The verifier raises no spurious failure: when the map is not empty,
has as many entries as the kind string has characters, has pairwise distinct
kinds (each a `gchar`, a code below 256) and the set of its kinds is the set
of the characters of the kind string, the check made for one language ends
without a fatal error. -/
theorem verify_lang_no_spurious_failure (char_is_signed : Bool) (lang : TMParserType)
    (map : TMParserMap) (kinds : List gchar)
    (hbyte : ∀ e ∈ map, e.kind.toNat < 256)
    (hne : map ≠ []) (hlen : map.length = kinds.length)
    (hnodup : (map.map fun e => e.kind).Nodup)
    (hset : {c : gchar | ∃ e ∈ map, e.kind = c} = {c : gchar | c ∈ kinds}) :
    verify_lang char_is_signed lang map kinds = .ok () := by
  have hiff : ∀ c : gchar, (∃ e ∈ map, e.kind = c) ↔ c ∈ kinds := by
    intro c
    have := Set.ext_iff.mp hset c
    exact this
  exact verify_lang_complete char_is_signed lang map kinds hbyte hne hlen hnodup
    (fun e he => (hiff e.kind).mp ⟨e, he, rfl⟩) (fun c hc => (hiff c).mpr hc)

/-- Witness of C20: the map of Java against its kinds in another order. -/
theorem verify_lang_no_spurious_failure_witness :
    (∀ e ∈ map_JAVA, e.kind.toNat < 256) ∧ map_JAVA ≠ [] ∧
      map_JAVA.length = "gepmifc".toList.length ∧
      (map_JAVA.map fun e => e.kind).Nodup ∧
      verify_lang true TM_PARSER_JAVA map_JAVA "gepmifc".toList = .ok () := by
  have hbyte : ∀ e ∈ map_JAVA, e.kind.toNat < 256 := by decide
  have hne : map_JAVA ≠ [] := by decide
  have hlen : map_JAVA.length = "gepmifc".toList.length := by decide
  have hnodup : (map_JAVA.map fun e => e.kind).Nodup := by decide
  refine ⟨hbyte, hne, hlen, hnodup, ?_⟩
  apply verify_lang_no_spurious_failure true TM_PARSER_JAVA map_JAVA "gepmifc".toList
    hbyte hne hlen hnodup
  ext c
  simp only [Set.mem_setOf_eq]
  constructor
  · rintro ⟨e, he, rfl⟩
    revert e
    decide
  · intro hc
    have hall : ∀ c ∈ "gepmifc".toList, ∃ e ∈ map_JAVA, e.kind = c := by decide
    exact hall c hc

/-- C21. The lazy initialisation of the subparser table cannot be seen by a
caller: `tm_parser_get_subparser_type` returns the same type whether
`subparser_map` is still `NULL` or already built; a call that finds it `NULL`
leaves the table of a single initialisation, a call that finds a table leaves
that table as it is, and so does a second call after a first one. -/
theorem tm_parser_get_subparser_type_lazy_init (lang sublang : TMParserType)
    (type : TMTagType) (lang2 sublang2 : TMParserType) (type2 : TMTagType) :
    (tm_parser_get_subparser_type none lang sublang type).1 =
        (tm_parser_get_subparser_type (some (init_subparser_map [])) lang sublang type).1 ∧
      (tm_parser_get_subparser_type none lang sublang type).2 =
        some (init_subparser_map []) ∧
      (∀ built : SubparserTable,
        (tm_parser_get_subparser_type (some built) lang sublang type).2 = some built) ∧
      (tm_parser_get_subparser_type (tm_parser_get_subparser_type none lang sublang type).2
          lang2 sublang2 type2).2 = some (init_subparser_map []) ∧
      (tm_parser_get_subparser_type (tm_parser_get_subparser_type none lang sublang type).2
          lang2 sublang2 type2).1 =
        (tm_parser_get_subparser_type none lang2 sublang2 type2).1 :=
  ⟨rfl, rfl, fun _ => rfl, rfl, rfl⟩

/-- C22. For a language of the registry, when `tm_parser_get_tag_kind` returns
for a type a kind other than the NUL character, `tm_parser_get_tag_type`
returns that type for the kind. The converse round trip fails: kind `p` of
Pascal is a function, whose kind is `f`. -/
theorem tm_parser_kind_of_type_round_trip (lang : TMParserType) (type : TMTagType)
    (kind : gchar) (h0 : 0 ≤ lang) (h1 : lang < TM_PARSER_COUNT)
    (hkind : tm_parser_get_tag_kind type lang = some kind) (hnul : kind ≠ '\x00') :
    tm_parser_get_tag_type kind lang = some type ∧
      tm_parser_get_tag_type 'p' TM_PARSER_PASCAL = some tm_tag_function_t ∧
      tm_parser_get_tag_kind tm_tag_function_t TM_PARSER_PASCAL = some 'f' := by
  refine ⟨?_, by decide, by decide⟩
  obtain ⟨map, hmap, hmem⟩ := parser_map_at_some h0 h1
  have hnodup := parser_map_kinds_nodup (lang, map) hmem
  rw [tm_parser_get_tag_kind_eq hmap] at hkind
  have hscan : get_tag_kind_scan type map = kind := Option.some.inj hkind
  have hex : ∃ e ∈ map, e.type = type :=
    get_tag_kind_scan_found type map (by rw [hscan]; exact hnul)
  obtain ⟨e, he, htype, hek⟩ := get_tag_kind_scan_mem type map hex
  rw [tm_parser_get_tag_type_eq hmap, ← hscan, hek,
    get_tag_type_scan_of_mem e.kind map hnodup e he rfl, htype]

/-- Witness of C22 at the union type of C, whose kind is `u`. -/
theorem tm_parser_kind_of_type_round_trip_witness :
    tm_parser_get_tag_kind tm_tag_union_t TM_PARSER_C = some 'u' ∧
      tm_parser_get_tag_type 'u' TM_PARSER_C = some tm_tag_union_t := by
  have hkind : tm_parser_get_tag_kind tm_tag_union_t TM_PARSER_C = some 'u' := by decide
  exact ⟨hkind, (tm_parser_kind_of_type_round_trip TM_PARSER_C tm_tag_union_t 'u'
    (by decide) (by decide) hkind (by decide)).1⟩

/-- C23. The function `tm_parser_update_scope` is idempotent, and for PHP and
Zephir its result has no backslash. -/
theorem tm_parser_update_scope_idempotent (lang : TMParserType) (scope : List gchar) :
    tm_parser_update_scope lang (tm_parser_update_scope lang scope) =
        tm_parser_update_scope lang scope ∧
      (lang = TM_PARSER_PHP ∨ lang = TM_PARSER_ZEPHIR →
        '\\' ∉ tm_parser_update_scope lang scope) := by
  unfold tm_parser_update_scope
  by_cases hphp : lang = TM_PARSER_PHP ∨ lang = TM_PARSER_ZEPHIR
  · simp only [if_pos hphp, replace_string_if_present_backslash]
    exact ⟨replace_every_backslash_absent _ (replace_every_backslash_clean scope),
      fun _ => replace_every_backslash_clean scope⟩
  · rw [if_neg hphp, if_neg hphp]
    exact ⟨rfl, fun h => absurd h hphp⟩

/-- Witness of C23: a Zephir scope with a backslash. -/
theorem tm_parser_update_scope_idempotent_witness :
    (TM_PARSER_ZEPHIR = TM_PARSER_PHP ∨ TM_PARSER_ZEPHIR = TM_PARSER_ZEPHIR) ∧
      '\\' ∉ tm_parser_update_scope TM_PARSER_ZEPHIR "A\\B".toList ∧
      tm_parser_update_scope TM_PARSER_ZEPHIR "A\\B".toList = "A::B".toList :=
  ⟨Or.inr rfl,
    (tm_parser_update_scope_idempotent TM_PARSER_ZEPHIR "A\\B".toList).2 (Or.inr rfl),
    by decide⟩

/-- C24. The classifications of C and C++ agree wherever C is defined: a kind
of the map of C has the same type in C++ as in C, and a type whose kind in C
is not the NUL character has the same kind in C++; the two languages are the
ones `tm_parser_langs_compatible` accepts for each other. -/
theorem c_cpp_classifications_agree (kind : gchar) (type : TMTagType) :
    parser_map_at TM_PARSER_C = some map_C ∧
      ((∃ e ∈ map_C, e.kind = kind) →
        ∃ t, tm_parser_get_tag_type kind TM_PARSER_C = some t ∧
          tm_parser_get_tag_type kind TM_PARSER_CPP = some t) ∧
      (∀ k, tm_parser_get_tag_kind type TM_PARSER_C = some k → k ≠ '\x00' →
        tm_parser_get_tag_kind type TM_PARSER_CPP = some k) ∧
      tm_parser_langs_compatible TM_PARSER_C TM_PARSER_CPP = true ∧
      tm_parser_langs_compatible TM_PARSER_CPP TM_PARSER_C = true := by
  have hc : parser_map_at TM_PARSER_C = some map_C := by decide
  have hcpp : parser_map_at TM_PARSER_CPP = some map_CPP := by decide
  refine ⟨hc, ?_, ?_, by decide, by decide⟩
  · intro hex
    refine ⟨get_tag_type_scan kind map_C, tm_parser_get_tag_type_eq hc kind, ?_⟩
    rw [tm_parser_get_tag_type_eq hcpp, map_CPP_eq_append,
      get_tag_type_scan_append_of_mem kind map_C _ hex]
  · intro k hk hnul
    rw [tm_parser_get_tag_kind_eq hc] at hk
    have hscan : get_tag_kind_scan type map_C = k := Option.some.inj hk
    have hex : ∃ e ∈ map_C, e.type = type :=
      get_tag_kind_scan_found type map_C (by rw [hscan]; exact hnul)
    rw [tm_parser_get_tag_kind_eq hcpp, map_CPP_eq_append,
      get_tag_kind_scan_append_of_mem type map_C _ hex, hscan]

/-- Witness of C24 at the kind `s` and the struct type. -/
theorem c_cpp_classifications_agree_witness :
    (∃ e ∈ map_C, e.kind = 's') ∧
      tm_parser_get_tag_type 's' TM_PARSER_CPP = some tm_tag_struct_t ∧
      tm_parser_get_tag_kind tm_tag_struct_t TM_PARSER_C = some 's' ∧
      tm_parser_get_tag_kind tm_tag_struct_t TM_PARSER_CPP = some 's' := by
  have hex : ∃ e ∈ map_C, e.kind = 's' := ⟨⟨'s', tm_tag_struct_t⟩, by decide, rfl⟩
  have hk : tm_parser_get_tag_kind tm_tag_struct_t TM_PARSER_C = some 's' := by decide
  refine ⟨hex, ?_, hk, ?_⟩
  · obtain ⟨t, htc, htcpp⟩ := (c_cpp_classifications_agree 's' tm_tag_struct_t).2.1 hex
    have hs : tm_parser_get_tag_type 's' TM_PARSER_C = some tm_tag_struct_t := by decide
    rw [hs] at htc
    rw [htcpp, ← htc]
  · exact (c_cpp_classifications_agree 's' tm_tag_struct_t).2.2.1 's' hk (by decide)

end Geany
